import Mathlib

/-!
Verification of the LocalTranscribe fusion and quality-gating engine.

Shallow embedding of the core modules:
* `localtranscribe/core/segment_processing.py` (SegmentProcessor),
* `localtranscribe/core/combination.py` (speaker regions and speaker mapping),
* `localtranscribe/quality/gates.py` (QualityGate).

Python floats are modelled as rationals (`ℚ`); Python dicts used as records
become structures; lists stay lists.  The record types `TranscriptionSegment`,
`TranscriptionResult`, and `DiarizationResult` come from modules
(`core/transcription.py`, `core/diarization.py`) that are not part of the
extract; they are modelled from the spec (sections 3 and 6) and from how
`combination.py` / `segment_processing.py` / `gates.py` access their fields.
`np.exp` is modelled as an abstract parameter function `ℚ → ℚ`.
-/

/-- Diarization output unit (`combination.py` / `segment_processing.py` treat it
as a dict with keys `speaker`, `start`, `end`, `duration`).  The Python `end`
key is called `stop` here because `end` is a Lean keyword. -/
structure RawSegment where
  speaker : String
  start : ℚ
  stop : ℚ
  duration : ℚ
deriving DecidableEq

/-- Modelled from the spec: `core/transcription.py` is not in the extract.
Per spec section 3 a TranscriptSegment carries `start`, `end`, `text`,
`avg_logprob`, `no_speech_prob`, `compression_ratio`; these are exactly the
fields read by `combination.py` and `gates.py`.  (`end` is renamed `stop`.) -/
structure TranscriptionSegment where
  start : ℚ
  stop : ℚ
  text : String
  avg_logprob : ℚ
  no_speech_prob : ℚ
  compression_ratio : ℚ
deriving DecidableEq

/-- Modelled from the spec: `core/transcription.py` is not in the extract.
Only the fields consumed by `gates.py` (`segments`, `language`) are modelled. -/
structure TranscriptionResult where
  segments : List TranscriptionSegment
  language : String
deriving DecidableEq

/-- Fusion output unit, `EnhancedSegment` in `core/combination.py`
(lines 19-33).  Note that its confidence fields are named
`speaker_confidence` and `combined_confidence`; it has no field named
`confidence`. -/
structure EnhancedSegment where
  start : ℚ
  stop : ℚ
  text : String
  speaker : String
  speaker_confidence : ℚ
  transcription_quality : ℚ
  combined_confidence : ℚ
  avg_logprob : ℚ
  no_speech_prob : ℚ
  compression_ratio : ℚ
deriving DecidableEq

/-- `SpeakerRegion` in `core/combination.py` (lines 49-63). -/
structure SpeakerRegion where
  speaker : String
  start : ℚ
  stop : ℚ
  duration : ℚ
  confidence : ℚ
  segment_count : ℕ
deriving DecidableEq

/-- `SegmentProcessingConfig` in `core/segment_processing.py` (lines 19-36). -/
structure SegmentProcessingConfig where
  min_segment_duration : ℚ
  merge_gap_threshold : ℚ
  min_speaker_turn : ℚ
  smoothing_window : ℚ
  enabled : Bool
deriving DecidableEq

/-- Default configuration values of `SegmentProcessingConfig`. -/
def SegmentProcessingConfig.default : SegmentProcessingConfig :=
  { min_segment_duration := 3/10, merge_gap_threshold := 1,
    min_speaker_turn := 2, smoothing_window := 2, enabled := true }

/-- `SegmentProcessingStats` in `core/segment_processing.py` (lines 39-54). -/
structure SegmentProcessingStats where
  original_segment_count : ℕ
  filtered_segment_count : ℕ
  merged_segment_count : ℕ
  smoothed_segment_count : ℕ
  final_segment_count : ℕ
  micro_segments_removed : ℕ
  speaker_switches_before : ℕ
  speaker_switches_after : ℕ
  avg_segment_duration_before : ℚ
  avg_segment_duration_after : ℚ
deriving DecidableEq

/-- The all-zero initial `SegmentProcessingStats()`. -/
def SegmentProcessingStats.init : SegmentProcessingStats :=
  ⟨0, 0, 0, 0, 0, 0, 0, 0, 0, 0⟩

/-- The `metadata['segment_processing']` block written by
`SegmentProcessor.process` (stats plus the config echo). -/
structure SegmentProcessingMeta where
  stats : SegmentProcessingStats
  switch_reduction_pct : ℚ
  duration_improvement_pct : ℚ
  config_min_segment_duration : ℚ
  config_merge_gap_threshold : ℚ
  config_smoothing_window : ℚ
deriving DecidableEq

/-- Modelled from the spec: `core/diarization.py` is not in the extract.
Per the spec (sections 3, 6) and the fields read by `segment_processing.py`
and `gates.py`, a diarization result carries a success flag, the ordered
segment list, per-speaker durations, a speaker count, and metadata.  The
general metadata dict is modelled as string pairs plus a dedicated slot for
the `segment_processing` block that `SegmentProcessor.process` writes. -/
structure DiarizationResult where
  success : Bool
  segments : List RawSegment
  speaker_durations : List (String × ℚ)
  num_speakers : ℕ
  metadata : List (String × String)
  segment_processing_meta : Option SegmentProcessingMeta
deriving DecidableEq

/-- Mean of a list of rationals (`np.mean`); 0 on the empty list, which the
code never hits (all call sites are guarded by non-emptiness). -/
def meanQ (l : List ℚ) : ℚ := l.sum / (l.length : ℚ)

/-- Maximum of a list of rationals (`max(...)` over a non-empty Python list);
0 on the empty list, which the code never hits. -/
def listMaxQ : List ℚ → ℚ
  | [] => 0
  | x :: rest => rest.foldl max x

/-- Minimum of a list of rationals (`min(...)` over a non-empty Python list);
0 on the empty list, which the code never hits. -/
def listMinQ : List ℚ → ℚ
  | [] => 0
  | x :: rest => rest.foldl min x

/-- The `_filter_micro_segments` loop (segment_processing.py lines 193-199):
keep segments with `duration >= min_segment_duration`, count the removed
ones. Returns the kept list and the number removed. -/
def filter_micro_go (min_dur : ℚ) : List RawSegment → List RawSegment × ℕ
  | [] => ([], 0)
  | s :: rest =>
    let (l, n) := filter_micro_go min_dur rest
    if s.duration ≥ min_dur then (s :: l, n) else (l, n + 1)

/-- `SegmentProcessor._filter_micro_segments` (lines 183-201): filters and
updates `micro_segments_removed` and `filtered_segment_count` in the stats. -/
def filter_micro_segments (cfg : SegmentProcessingConfig)
    (segments : List RawSegment) (stats : SegmentProcessingStats) :
    List RawSegment × SegmentProcessingStats :=
  let (l, n) := filter_micro_go cfg.min_segment_duration segments
  (l, { stats with micro_segments_removed := stats.micro_segments_removed + n,
                   filtered_segment_count := l.length })

/-- The accumulator loop of `_merge_consecutive_segments` (lines 216-237):
`cur` is the running `current` segment, the second result component counts
merges performed. -/
def merge_consecutive_go (gap_thr : ℚ) (cur : RawSegment) :
    List RawSegment → List RawSegment × ℕ
  | [] => ([cur], 0)
  | n :: rest =>
    if n.speaker = cur.speaker ∧ n.start - cur.stop ≤ gap_thr then
      let (l, c) := merge_consecutive_go gap_thr
        { cur with stop := n.stop, duration := n.stop - cur.start } rest
      (l, c + 1)
    else
      let (l, c) := merge_consecutive_go gap_thr n rest
      (cur :: l, c)

/-- `SegmentProcessor._merge_consecutive_segments` (lines 203-237). -/
def merge_consecutive_segments (cfg : SegmentProcessingConfig)
    (segments : List RawSegment) (stats : SegmentProcessingStats) :
    List RawSegment × SegmentProcessingStats :=
  match segments with
  | [] => ([], stats)
  | first :: rest =>
    let (l, c) := merge_consecutive_go cfg.merge_gap_threshold first rest
    (l, { stats with merged_segment_count := stats.merged_segment_count + c })

/-- The in-place reassignment scan of `_smooth_speaker_transitions`
(lines 258-272): walks interior segments with the (already updated) previous
segment at hand; a short segment surrounded by one other speaker is
reassigned to that speaker.  The last element is never modified.  The second
result component counts reassignments. -/
def smooth_reassign_go (window : ℚ) (prev : RawSegment) :
    List RawSegment → List RawSegment × ℕ
  | curr :: next :: rest =>
    if curr.duration < window ∧ prev.speaker = next.speaker ∧
        prev.speaker ≠ curr.speaker then
      let curr2 := { curr with speaker := prev.speaker }
      let (l, c) := smooth_reassign_go window curr2 (next :: rest)
      (curr2 :: l, c + 1)
    else
      let (l, c) := smooth_reassign_go window curr (next :: rest)
      (curr :: l, c)
  | l => (l, 0)

/-- The gap-free re-merge pass at the end of `_smooth_speaker_transitions`
(lines 276-289): strictly adjacent same-speaker segments are merged. -/
def adjacent_merge_go (cur : RawSegment) : List RawSegment → List RawSegment
  | [] => [cur]
  | n :: rest =>
    if n.speaker = cur.speaker then
      adjacent_merge_go { cur with stop := n.stop, duration := n.stop - cur.start } rest
    else
      cur :: adjacent_merge_go n rest

/-- `SegmentProcessor._smooth_speaker_transitions` (lines 239-291): below 3
segments the list is returned unchanged; otherwise reassign blips, then
re-merge newly adjacent same-speaker segments. -/
def smooth_speaker_transitions (cfg : SegmentProcessingConfig)
    (segments : List RawSegment) (stats : SegmentProcessingStats) :
    List RawSegment × SegmentProcessingStats :=
  if segments.length < 3 then (segments, stats)
  else
    match segments with
    | [] => (segments, stats)
    | first :: rest =>
      let (tl, c) := smooth_reassign_go cfg.smoothing_window first rest
      let stats2 := { stats with smoothed_segment_count := stats.smoothed_segment_count + c }
      (adjacent_merge_go first tl, stats2)

/-- `SegmentProcessor._count_speaker_switches` (lines 293-310): number of
adjacent positions whose speakers differ. -/
def count_speaker_switches : List RawSegment → ℕ
  | a :: b :: rest =>
    (if b.speaker ≠ a.speaker then 1 else 0) + count_speaker_switches (b :: rest)
  | _ => 0

/-- `SegmentProcessor._calculate_avg_duration` (lines 312-325). -/
def calculate_avg_duration (segments : List RawSegment) : ℚ :=
  if segments = [] then 0 else (segments.map (·.duration)).sum / (segments.length : ℚ)

/-- One update step of the `_calculate_speaker_durations` dict (insertion
order preserved, as in a Python dict). -/
def addDuration (spk : String) (d : ℚ) : List (String × ℚ) → List (String × ℚ)
  | [] => [(spk, d)]
  | (s, v) :: rest =>
    if s = spk then (s, v + d) :: rest else (s, v) :: addDuration spk d rest

/-- `SegmentProcessor._calculate_speaker_durations` (lines 327-343). -/
def calculate_speaker_durations (segments : List RawSegment) : List (String × ℚ) :=
  segments.foldl (fun acc seg => addDuration seg.speaker seg.duration acc) []

/-- `SegmentProcessor.process` (lines 81-181).  The three skip branches
(disabled, unsuccessful prior stage, zero segments) return the input result
unchanged; otherwise filter, merge and smooth the segments, recompute speaker
durations and attach the statistics block to the metadata. -/
def SegmentProcessor.process (cfg : SegmentProcessingConfig)
    (r : DiarizationResult) : DiarizationResult :=
  if cfg.enabled = false then r
  else if r.success = false then r
  else if r.segments = [] then r
  else
    let segments0 := r.segments
    let stats0 : SegmentProcessingStats :=
      { SegmentProcessingStats.init with
          original_segment_count := segments0.length,
          speaker_switches_before := count_speaker_switches segments0,
          avg_segment_duration_before := calculate_avg_duration segments0 }
    let (segments1, stats1) := filter_micro_segments cfg segments0 stats0
    let (segments2, stats2) := merge_consecutive_segments cfg segments1 stats1
    let (segments3, stats3) := smooth_speaker_transitions cfg segments2 stats2
    let stats4 : SegmentProcessingStats :=
      { stats3 with
          final_segment_count := segments3.length,
          speaker_switches_after := count_speaker_switches segments3,
          avg_segment_duration_after := calculate_avg_duration segments3 }
    let speaker_durations := calculate_speaker_durations segments3
    let meta : SegmentProcessingMeta :=
      { stats := stats4,
        switch_reduction_pct :=
          if stats4.speaker_switches_before > 0 then
            100 * ((stats4.speaker_switches_before : ℚ) - stats4.speaker_switches_after) /
              (stats4.speaker_switches_before : ℚ)
          else 0,
        duration_improvement_pct :=
          if stats4.avg_segment_duration_before > 0 then
            100 * (stats4.avg_segment_duration_after - stats4.avg_segment_duration_before) /
              stats4.avg_segment_duration_before
          else 0,
        config_min_segment_duration := cfg.min_segment_duration,
        config_merge_gap_threshold := cfg.merge_gap_threshold,
        config_smoothing_window := cfg.smoothing_window }
    { r with segments := segments3,
             speaker_durations := speaker_durations,
             segment_processing_meta := some meta }

/-- The running `current_region` dict of `create_speaker_regions`
(combination.py lines 85-121); its `duration` is only computed when the
region is flushed. -/
structure RegionAcc where
  speaker : String
  start : ℚ
  stop : ℚ
  confidence : ℚ
  segment_count : ℕ
deriving DecidableEq

/-- Flushing the running region into a `SpeakerRegion`
(combination.py lines 102-112 and 124-134). -/
def RegionAcc.flush (r : RegionAcc) : SpeakerRegion :=
  { speaker := r.speaker, start := r.start, stop := r.stop,
    duration := r.stop - r.start, confidence := r.confidence,
    segment_count := r.segment_count }

/-- The loop of `create_speaker_regions` (combination.py lines 93-134). -/
def create_speaker_regions_go (max_gap : ℚ) (cur : RegionAcc) :
    List RawSegment → List SpeakerRegion
  | [] => [cur.flush]
  | seg :: rest =>
    if seg.speaker = cur.speaker ∧ seg.start - cur.stop ≤ max_gap then
      create_speaker_regions_go max_gap
        { cur with stop := seg.stop, segment_count := cur.segment_count + 1 } rest
    else
      cur.flush ::
        create_speaker_regions_go max_gap
          ⟨seg.speaker, seg.start, seg.stop, 1, 1⟩ rest

/-- `create_speaker_regions` (combination.py lines 66-136): group consecutive
same-speaker diarization segments into regions, bridging gaps of at most
`max_gap` seconds; empty input gives no regions. -/
def create_speaker_regions (diarization_segments : List RawSegment)
    (max_gap : ℚ) : List SpeakerRegion :=
  match diarization_segments with
  | [] => []
  | d :: rest =>
    create_speaker_regions_go max_gap ⟨d.speaker, d.start, d.stop, 1, 1⟩ rest

/-- The overlap duration between a transcription segment and a region:
`max(0, min(trans_end, region.end) - max(trans_start, region.start))`
(combination.py lines 196-198). -/
def overlapDur (t : TranscriptionSegment) (r : SpeakerRegion) : ℚ :=
  max 0 (min t.stop r.stop - max t.start r.start)

/-- The boundary distance used by the fallback rule: the smallest of the four
gaps between segment and region edges (combination.py lines 231-236). -/
def boundaryDist (t : TranscriptionSegment) (r : SpeakerRegion) : ℚ :=
  min (min |t.start - r.stop| |t.stop - r.start|)
    (min |t.start - r.start| |t.stop - r.stop|)

/-- State of the best-region search: `best_score`, `best_speaker`,
`best_confidence` (combination.py lines 190-192). -/
structure BestAcc where
  best_score : ℚ
  best_speaker : String
  best_confidence : ℚ
deriving DecidableEq

/-- The scoring loop over regions (combination.py lines 194-224): regions with
zero overlap are skipped; otherwise the weighted score is computed and the
best-scoring region is retained (strict improvement, so the first best wins). -/
def scan_regions (prev : Option String) (t : TranscriptionSegment)
    (overlap_weight duration_weight consistency_weight : ℚ) :
    List SpeakerRegion → BestAcc → BestAcc
  | [], acc => acc
  | r :: rest, acc =>
    if overlapDur t r = 0 then
      scan_regions prev t overlap_weight duration_weight consistency_weight rest acc
    else
      let trans_duration := t.stop - t.start
      let overlap_score :=
        if trans_duration > 0 then overlapDur t r / trans_duration else 0
      let duration_score := min 1 (r.duration / 5)
      let consistency_score : ℚ := if prev = some r.speaker then 8/10 else 2/10
      let final_score :=
        (overlap_score * overlap_weight + duration_score * duration_weight +
          consistency_score * consistency_weight) * r.confidence
      let acc2 :=
        if final_score > acc.best_score then
          ⟨final_score, r.speaker, overlap_score⟩
        else acc
      scan_regions prev t overlap_weight duration_weight consistency_weight rest acc2

/-- The fallback loop over regions (combination.py lines 227-241): tracks the
minimum boundary distance seen so far (`none` models the initial
`float('inf')`) together with the speaker and the fixed 0.1 confidence that
each strict improvement installs. -/
def fallback_scan (t : TranscriptionSegment) :
    List SpeakerRegion → Option ℚ × String × ℚ → Option ℚ × String × ℚ
  | [], st => st
  | r :: rest, (none, _, _) =>
    fallback_scan t rest (some (boundaryDist t r), r.speaker, 1/10)
  | r :: rest, (some m, spk, conf) =>
    if boundaryDist t r < m then
      fallback_scan t rest (some (boundaryDist t r), r.speaker, 1/10)
    else fallback_scan t rest (some m, spk, conf)

/-- The per-transcription-segment speaker assignment (combination.py lines
184-241): run the scoring loop; if its best score stayed below 0 (no region
overlapped), run the fallback loop.  Returns the assigned speaker and the
`speaker_confidence`. -/
def assign_speaker (regions : List SpeakerRegion) (prev : Option String)
    (overlap_weight duration_weight consistency_weight : ℚ)
    (t : TranscriptionSegment) : String × ℚ :=
  let acc := scan_regions prev t overlap_weight duration_weight
    consistency_weight regions ⟨-1, "UNKNOWN", 0⟩
  if acc.best_score < 0 then
    let st := fallback_scan t regions (none, acc.best_speaker, acc.best_confidence)
    (st.2.1, st.2.2)
  else (acc.best_speaker, acc.best_confidence)

/-- Building the `EnhancedSegment` for one transcription segment
(combination.py lines 243-265), given the assigned speaker and confidence. -/
def mkEnhanced (t : TranscriptionSegment) (spk : String) (conf : ℚ) :
    EnhancedSegment :=
  let transcription_quality :=
    max 0 (min 1 ((1 - t.no_speech_prob) * (1 - |t.avg_logprob| / 10)))
  { start := t.start, stop := t.stop, text := t.text, speaker := spk,
    speaker_confidence := conf,
    transcription_quality := transcription_quality,
    combined_confidence := conf * transcription_quality,
    avg_logprob := t.avg_logprob, no_speech_prob := t.no_speech_prob,
    compression_ratio := t.compression_ratio }

/-- The main loop of `map_speakers_to_segments` (combination.py lines
181-270), threading `previous_speaker` (updated after every assignment,
fallback included). -/
def map_speakers_go (regions : List SpeakerRegion)
    (overlap_weight duration_weight consistency_weight : ℚ)
    (prev : Option String) : List TranscriptionSegment → List EnhancedSegment
  | [] => []
  | t :: rest =>
    let sc := assign_speaker regions prev overlap_weight duration_weight
      consistency_weight t
    mkEnhanced t sc.1 sc.2 ::
      map_speakers_go regions overlap_weight duration_weight
        consistency_weight (some sc.1) rest

/-- `map_speakers_to_segments` (combination.py lines 139-270).  With
`use_regions` the diarization segments are grouped into regions with
`max_gap = 1.0`; otherwise each segment becomes its own trivial region.
Python default weights are `temporal_consistency_weight=0.3`,
`duration_weight=0.4`, `overlap_weight=0.3`. -/
def map_speakers_to_segments (diarization_segments : List RawSegment)
    (transcription_segments : List TranscriptionSegment)
    (use_regions : Bool)
    (consistency_weight duration_weight overlap_weight : ℚ) :
    List EnhancedSegment :=
  let regions :=
    if use_regions then create_speaker_regions diarization_segments 1
    else diarization_segments.map fun seg =>
      ⟨seg.speaker, seg.start, seg.stop, seg.duration, 1, 1⟩
  map_speakers_go regions overlap_weight duration_weight consistency_weight
    none transcription_segments

/-- `QualitySeverity` in `quality/gates.py` (lines 14-19). -/
inductive QualitySeverity where
  | low
  | medium
  | high
  | critical
deriving DecidableEq

/-- `QualityThresholds` in `quality/gates.py` (lines 22-38). -/
structure QualityThresholds where
  max_micro_segment_ratio : ℚ
  min_avg_segment_duration : ℚ
  max_speaker_switches_per_minute : ℚ
  min_avg_confidence : ℚ
  max_no_speech_prob : ℚ
  max_compression_ratio : ℚ
  min_speaker_mapping_confidence : ℚ
  max_ambiguous_segments_ratio : ℚ
deriving DecidableEq

/-- The default `QualityThresholds()` values. -/
def QualityThresholds.default : QualityThresholds :=
  { max_micro_segment_ratio := 15/100,
    min_avg_segment_duration := 2,
    max_speaker_switches_per_minute := 8,
    min_avg_confidence := 7/10,
    max_no_speech_prob := 3/10,
    max_compression_ratio := 5/2,
    min_speaker_mapping_confidence := 6/10,
    max_ambiguous_segments_ratio := 1/10 }

/-- `QualityIssue` in `quality/gates.py` (lines 41-50).  The numeric values
that Python interpolates into `message` are elided (the fixed message text is
kept, which is all `should_reprocess` pattern-matches on). -/
structure QualityIssue where
  severity : QualitySeverity
  message : String
  suggestion : String
  metric_name : Option String
  metric_value : Option ℚ
  threshold_value : Option ℚ
deriving DecidableEq

/-- A metadata value of a `QualityAssessment` (numbers or strings). -/
inductive MetaVal where
  | num : ℚ → MetaVal
  | str : String → MetaVal
deriving DecidableEq

/-- `QualityAssessment` in `quality/gates.py` (lines 53-75).  `metrics` and
`metadata` are insertion-ordered association lists, like Python dicts. -/
structure QualityAssessment where
  stage : String
  overall_score : ℚ
  passed : Bool
  issues : List QualityIssue
  metrics : List (String × ℚ)
  recommendations : List String
  metadata : List (String × MetaVal)
deriving DecidableEq

/-- `ReprocessDecision` in `quality/gates.py` (lines 78-86).  The numeric
score interpolated into `reason` is elided. -/
structure ReprocessDecision where
  should_reprocess : Bool
  reason : String
  strategy : Option String
  suggested_model : Option String
  suggested_processing : List String
deriving DecidableEq

/-- Number of issues with the given severity
(`len([i for i in issues if i.severity == s])`). -/
def severityCount (s : QualitySeverity) (issues : List QualityIssue) : ℕ :=
  (issues.filter fun i => i.severity = s).length

/-- `QualityGate.assess_diarization_quality` (gates.py lines 108-253).  The
empty-segment branch returns the fixed CRITICAL assessment; otherwise the
micro-segment ratio, average duration, switch rate and speaker balance are
computed, issues collected, and the 30/30/30/10 weighted score formed.
The audio duration is `max(s['end'])` over the (non-empty) segments, which
overwrites the `processing_time` initialisation in the source. -/
def assess_diarization_quality (thr : QualityThresholds)
    (r : DiarizationResult) : QualityAssessment :=
  if r.segments = [] then
    { stage := "diarization", overall_score := 0, passed := false,
      issues := [⟨QualitySeverity.critical, "No segments detected",
        "Check audio file contains speech", none, none, none⟩],
      metrics := [],
      recommendations := ["Verify audio file is not empty", "Check audio quality"],
      metadata := [] }
  else
    let segments := r.segments
    let total_segments := segments.length
    let micro_segments := (segments.filter fun s => s.duration < 1/2).length
    let micro_ratio := (micro_segments : ℚ) / (total_segments : ℚ)
    let issues1 : List QualityIssue :=
      if micro_ratio > thr.max_micro_segment_ratio then
        [⟨if micro_ratio > 1/4 then QualitySeverity.high else QualitySeverity.medium,
          "High micro-segment ratio",
          "Apply segment post-processing to merge short segments",
          some "micro_segment_ratio", some micro_ratio,
          some thr.max_micro_segment_ratio⟩]
      else []
    let recs1 : List String :=
      if micro_ratio > thr.max_micro_segment_ratio then
        ["Enable segment post-processing"]
      else []
    let avg_duration := meanQ (segments.map (·.duration))
    let issues2 : List QualityIssue :=
      if avg_duration < thr.min_avg_segment_duration then
        [⟨QualitySeverity.medium, "Short average segment duration",
          "May indicate over-segmentation, apply smoothing",
          some "avg_segment_duration", some avg_duration,
          some thr.min_avg_segment_duration⟩]
      else []
    let recs2 : List String :=
      if avg_duration < thr.min_avg_segment_duration then
        ["Apply temporal smoothing to reduce fragmentation"]
      else []
    let switches := count_speaker_switches segments
    let duration := listMaxQ (segments.map (·.stop))
    let switch_rate := if duration > 0 then (switches : ℚ) / (duration / 60) else 0
    let issues3 : List QualityIssue :=
      if switch_rate > thr.max_speaker_switches_per_minute then
        [⟨QualitySeverity.high, "High speaker switch rate",
          "Likely over-segmentation, apply smoothing and merging",
          some "speaker_switches_per_minute", some switch_rate,
          some thr.max_speaker_switches_per_minute⟩]
      else []
    let recs3 : List String :=
      if switch_rate > thr.max_speaker_switches_per_minute then
        ["Increase merge_gap_threshold in segment processing"]
      else []
    let total_duration := (r.speaker_durations.map (·.2)).sum
    let min_percentage :=
      listMinQ (r.speaker_durations.map fun p => p.2 / total_duration * 100)
    let issues4 : List QualityIssue :=
      if r.speaker_durations ≠ [] ∧ min_percentage < 5 ∧
          r.speaker_durations.length > 2 then
        [⟨QualitySeverity.low, "Imbalanced speaker distribution",
          "Some speakers may be incorrectly merged or split",
          some "min_speaker_percentage", some min_percentage, none⟩]
      else []
    let issues := issues1 ++ issues2 ++ issues3 ++ issues4
    let micro_score := 1 - min 1 (micro_ratio / (3/10))
    let duration_score := min 1 (avg_duration / 3)
    let switch_score := 1 - min 1 (switch_rate / 15)
    let critical_count := severityCount QualitySeverity.critical issues
    let high_count := severityCount QualitySeverity.high issues
    let issue_score := 1 - ((critical_count : ℚ) * (3/10) + (high_count : ℚ) * (1/10))
    let overall_score := micro_score * (3/10) + duration_score * (3/10) +
      switch_score * (3/10) + max 0 issue_score * (1/10)
    { stage := "diarization",
      overall_score := overall_score,
      passed := decide (overall_score ≥ 7/10 ∧ critical_count = 0),
      issues := issues,
      metrics := [("micro_segment_ratio", micro_ratio),
        ("micro_segment_count", (micro_segments : ℚ)),
        ("avg_segment_duration", avg_duration),
        ("speaker_switches_per_minute", switch_rate),
        ("total_speaker_switches", (switches : ℚ))] ++
        (if r.speaker_durations ≠ [] then
          [("min_speaker_percentage", min_percentage)] else []),
      recommendations := recs1 ++ recs2 ++ recs3,
      metadata := [("total_segments", MetaVal.num (total_segments : ℚ)),
        ("num_speakers", MetaVal.num (r.num_speakers : ℚ))] }

/-- The per-segment confidence conversion of
`assess_transcription_quality` (gates.py line 290):
`np.exp(avg_logprob)` when `avg_logprob > -10`, else 0.  `expf` is the
abstract model of `np.exp`. -/
def logprobConfidence (expf : ℚ → ℚ) (x : ℚ) : ℚ :=
  if x > -10 then expf x else 0

/-- `QualityGate.assess_transcription_quality` (gates.py lines 255-404).
Every `TranscriptionSegment` of this repository carries `avg_logprob`,
`no_speech_prob` and `compression_ratio`, so the three `hasattr` guards in
the source always succeed and the three metric lists are as long as the
segment list. -/
def assess_transcription_quality (expf : ℚ → ℚ) (thr : QualityThresholds)
    (r : TranscriptionResult) : QualityAssessment :=
  if r.segments = [] then
    { stage := "transcription", overall_score := 0, passed := false,
      issues := [⟨QualitySeverity.critical, "No transcription segments",
        "Check if audio contains speech", none, none, none⟩],
      metrics := [], recommendations := [], metadata := [] }
  else
    let segments := r.segments
    let confidences := segments.map fun s => logprobConfidence expf s.avg_logprob
    let no_speech_probs := segments.map (·.no_speech_prob)
    let compression_ratios := segments.map (·.compression_ratio)
    let avg_confidence := meanQ confidences
    let issues1 : List QualityIssue :=
      if avg_confidence < thr.min_avg_confidence then
        [⟨QualitySeverity.medium, "Low average confidence",
          "Consider using larger model or checking audio quality",
          some "avg_confidence", some avg_confidence,
          some thr.min_avg_confidence⟩]
      else []
    let recs1 : List String :=
      if avg_confidence < thr.min_avg_confidence then
        ["Use larger Whisper model (e.g., medium or large)"]
      else []
    let avg_no_speech := meanQ no_speech_probs
    let issues2 : List QualityIssue :=
      if avg_no_speech > thr.max_no_speech_prob then
        [⟨QualitySeverity.high, "High no-speech probability",
          "Audio may not contain clear speech",
          some "avg_no_speech_prob", some avg_no_speech,
          some thr.max_no_speech_prob⟩]
      else []
    let recs2 : List String :=
      if avg_no_speech > thr.max_no_speech_prob then
        ["Verify audio quality and speech content"]
      else []
    let avg_compression := meanQ compression_ratios
    let issues3 : List QualityIssue :=
      if avg_compression > thr.max_compression_ratio then
        [⟨QualitySeverity.medium, "High compression ratio",
          "May indicate repetitive or problematic transcription",
          some "avg_compression_ratio", some avg_compression,
          some thr.max_compression_ratio⟩]
      else []
    let recs3 : List String :=
      if avg_compression > thr.max_compression_ratio then
        ["Review transcription for repetitions"]
      else []
    let total_segments := segments.length
    let avg_segment_duration := meanQ (segments.map fun s => s.stop - s.start)
    let issues4 : List QualityIssue :=
      if avg_segment_duration < 1 then
        [⟨QualitySeverity.low, "Very short average segments",
          "May make speaker mapping more difficult", none, none, none⟩]
      else []
    let issues := issues1 ++ issues2 ++ issues3 ++ issues4
    let conf_score := avg_confidence / thr.min_avg_confidence
    let no_speech_score := 1 - avg_no_speech / thr.max_no_speech_prob
    let comp_score := 1 - max 0 ((avg_compression - 3/2) / thr.max_compression_ratio)
    let critical_count := severityCount QualitySeverity.critical issues
    let high_count := severityCount QualitySeverity.high issues
    let issue_score := 1 - ((critical_count : ℚ) * (3/10) + (high_count : ℚ) * (1/10))
    let overall_score := min 1 conf_score * (4/10) +
      max 0 (min 1 no_speech_score) * (3/10) +
      max 0 (min 1 comp_score) * (2/10) + max 0 issue_score * (1/10)
    { stage := "transcription",
      overall_score := overall_score,
      passed := decide (overall_score ≥ 7/10 ∧ critical_count = 0),
      issues := issues,
      metrics := [("avg_confidence", avg_confidence),
        ("avg_no_speech_prob", avg_no_speech),
        ("avg_compression_ratio", avg_compression),
        ("total_segments", (total_segments : ℚ)),
        ("avg_segment_duration", avg_segment_duration)],
      recommendations := recs1 ++ recs2 ++ recs3,
      metadata := [("total_segments", MetaVal.num (total_segments : ℚ)),
        ("language", MetaVal.str r.language)] }

/-- `CombinationResult` in `core/combination.py` (lines 35-46); the fields
`gates.py` reads. -/
structure CombinationResult where
  success : Bool
  segments : List EnhancedSegment
  num_speakers : ℕ
  speaker_durations : List (String × ℚ)
deriving DecidableEq

/-- What `assess_combination_quality` can observe of one combined segment
through its duck-typed accesses: the `speaker`, `start` and `end` attributes
(always present on `EnhancedSegment`), and an optional `confidence`
attribute — `none` models `hasattr(seg, 'confidence') == False`. -/
structure CombSegView where
  confidence : Option ℚ
  speaker : String
  start : ℚ
  stop : ℚ
deriving DecidableEq

/-- The view of an `EnhancedSegment` under the duck-typed accesses of
`assess_combination_quality`: `EnhancedSegment` has fields
`speaker_confidence` and `combined_confidence` but none named `confidence`,
so `hasattr(seg, 'confidence')` is False and the view's `confidence` is
`none`. -/
def EnhancedSegment.toView (s : EnhancedSegment) : CombSegView :=
  { confidence := none, speaker := s.speaker, start := s.start, stop := s.stop }

/-- One update step of the `speaker_counts` dict
(gates.py lines 472-475), insertion order preserved. -/
def addCount (spk : String) : List (String × ℕ) → List (String × ℕ)
  | [] => [(spk, 1)]
  | (s, v) :: rest =>
    if s = spk then (s, v + 1) :: rest else (s, v) :: addCount spk rest

/-- The rapid-alternation count (gates.py lines 480-491): adjacent pairs with
different speakers whose gap `curr.start - prev.end` is below 0.5s. -/
def rapid_switch_count : List CombSegView → ℕ
  | a :: b :: rest =>
    (if a.speaker ≠ b.speaker ∧ b.start - a.stop < 1/2 then 1 else 0) +
      rapid_switch_count (b :: rest)
  | _ => 0

/-- The body of `assess_combination_quality` (gates.py lines 406-543) on the
per-segment views.  `confidences` collects the `confidence` attribute of the
segments that have one. -/
def assess_combination_segments (thr : QualityThresholds)
    (segments : List CombSegView) : QualityAssessment :=
  if segments = [] then
    { stage := "combination", overall_score := 0, passed := false,
      issues := [⟨QualitySeverity.critical, "No combined segments",
        "Check diarization and transcription results", none, none, none⟩],
      metrics := [], recommendations := [], metadata := [] }
  else
    let confidences := segments.filterMap (·.confidence)
    let avg_confidence := meanQ confidences
    let issues1 : List QualityIssue :=
      if confidences ≠ [] ∧ avg_confidence < thr.min_speaker_mapping_confidence then
        [⟨QualitySeverity.high, "Low speaker mapping confidence",
          "Speaker assignments may be unreliable",
          some "avg_speaker_mapping_confidence", some avg_confidence,
          some thr.min_speaker_mapping_confidence⟩]
      else []
    let recs1 : List String :=
      if confidences ≠ [] ∧ avg_confidence < thr.min_speaker_mapping_confidence then
        ["Review speaker assignments manually",
         "Enable enhanced speaker mapping features"]
      else []
    let low_conf_segments := (confidences.filter fun c => c < 1/2).length
    let ambiguous_ratio := (low_conf_segments : ℚ) / (segments.length : ℚ)
    let issues2 : List QualityIssue :=
      if ambiguous_ratio > thr.max_ambiguous_segments_ratio then
        [⟨QualitySeverity.medium, "High ambiguous segments ratio",
          "Many segments have low confidence speaker assignments",
          some "ambiguous_segments_ratio", some ambiguous_ratio,
          some thr.max_ambiguous_segments_ratio⟩]
      else []
    let recs2 : List String :=
      if ambiguous_ratio > thr.max_ambiguous_segments_ratio then
        ["Review ambiguous segments"]
      else []
    let speaker_counts := segments.foldl (fun acc seg => addCount seg.speaker acc) []
    let rapid_switches := rapid_switch_count segments
    let rapid_switch_ratio := (rapid_switches : ℚ) / (segments.length : ℚ)
    let issues3 : List QualityIssue :=
      if rapid_switch_ratio > 15/100 then
        [⟨QualitySeverity.medium, "High rapid speaker switch ratio",
          "May indicate speaker mapping issues",
          some "rapid_switch_ratio", some rapid_switch_ratio, none⟩]
      else []
    let issues := issues1 ++ issues2 ++ issues3
    let conf_component :=
      if confidences ≠ [] then
        min 1 (avg_confidence / thr.min_speaker_mapping_confidence) * (5/10)
      else (7/10) * (5/10)
    let amb_score := 1 - ambiguous_ratio / thr.max_ambiguous_segments_ratio
    let switch_score := 1 - rapid_switch_ratio
    let critical_count := severityCount QualitySeverity.critical issues
    let high_count := severityCount QualitySeverity.high issues
    let issue_score := 1 - ((critical_count : ℚ) * (3/10) + (high_count : ℚ) * (1/10))
    let overall_score := conf_component + max 0 (min 1 amb_score) * (3/10) +
      max 0 switch_score * (1/10) + max 0 issue_score * (1/10)
    { stage := "combination",
      overall_score := overall_score,
      passed := decide (overall_score ≥ 7/10 ∧ critical_count = 0),
      issues := issues,
      metrics :=
        (if confidences ≠ [] then
          [("avg_speaker_mapping_confidence", avg_confidence)] else []) ++
        [("ambiguous_segments_ratio", ambiguous_ratio),
         ("num_speakers", (speaker_counts.length : ℚ)),
         ("rapid_switch_ratio", rapid_switch_ratio)],
      recommendations := recs1 ++ recs2,
      metadata := [("total_segments", MetaVal.num (segments.length : ℚ)),
        ("num_speakers", MetaVal.num (speaker_counts.length : ℚ))] }

/-- `QualityGate.assess_combination_quality` (gates.py lines 406-543), as
invoked on a `CombinationResult` whose segments are `EnhancedSegment`
records. -/
def assess_combination_quality (thr : QualityThresholds)
    (r : CombinationResult) : QualityAssessment :=
  assess_combination_segments thr (r.segments.map EnhancedSegment.toView)

/-- Whether the character list `pat` starts the character list `hay`. -/
def charsStartWith : List Char → List Char → Bool
  | [], _ => true
  | _ :: _, [] => false
  | p :: ps, h :: hs => p = h && charsStartWith ps hs

/-- Whether `pat` occurs contiguously inside `hay` (Python `pat in hay` on
strings, on the character level). -/
def charsContain (pat : List Char) : List Char → Bool
  | [] => pat.isEmpty
  | h :: hs => charsStartWith pat (h :: hs) || charsContain pat hs

/-- Python `pat in hay` for strings. -/
def strContains (hay pat : String) : Bool := charsContain pat.toList hay.toList

/-- The suggested-processing steps derived from the issue messages in
`should_reprocess` (gates.py lines 571-579): each issue whose lowercased
message contains `micro-segment` / `switch` / `confidence` contributes
`segment_filtering` / `temporal_smoothing` / `enhanced_mapping`, in issue
order. -/
def deriveSuggestedProcessing (issues : List QualityIssue) : List String :=
  issues.foldl (fun acc i =>
    acc ++
      (if strContains i.message.toLower "micro-segment" then
        ["segment_filtering"] else []) ++
      (if strContains i.message.toLower "switch" then
        ["temporal_smoothing"] else []) ++
      (if strContains i.message.toLower "confidence" then
        ["enhanced_mapping"] else [])) []

/-- `QualityGate.should_reprocess` (gates.py lines 545-594). -/
def should_reprocess (a : QualityAssessment) : ReprocessDecision :=
  if a.overall_score ≥ 85/100 then
    { should_reprocess := false, reason := "Quality acceptable",
      strategy := none, suggested_model := none, suggested_processing := [] }
  else if a.overall_score < 4/10 then
    { should_reprocess := true,
      reason := "Quality too low, recommend better model",
      strategy := some "use_better_model", suggested_model := some "large",
      suggested_processing := [] }
  else if a.overall_score < 7/10 then
    let sp := deriveSuggestedProcessing a.issues
    { should_reprocess := true,
      reason := "Quality marginal, apply post-processing",
      strategy := some "apply_postprocessing", suggested_model := none,
      suggested_processing := if sp = [] then ["post_processing"] else sp }
  else
    { should_reprocess := false, reason := "Quality adequate",
      strategy := none, suggested_model := none, suggested_processing := [] }

/-! ### Theorems -/

/-- If an issue of a given severity is in the list, the severity count is
positive. -/
theorem severityCount_pos_of_mem {i : QualityIssue} {issues : List QualityIssue}
    (hm : i ∈ issues) (hs : i.severity = QualitySeverity.critical) :
    severityCount QualitySeverity.critical issues ≠ 0 := by
  unfold severityCount
  have : i ∈ issues.filter fun j => j.severity = QualitySeverity.critical := by
    refine List.mem_filter.mpr ⟨hm, ?_⟩
    simp [hs]
  intro hlen
  rw [List.length_eq_zero] at hlen
  rw [hlen] at this
  exact absurd this (List.not_mem_nil i)

/-- C9. If processing is disabled, or the prior diarization stage failed, or
there are zero segments, `SegmentProcessor.process` returns its input result
unchanged, every field included. -/
theorem process_skip_identity (cfg : SegmentProcessingConfig)
    (r : DiarizationResult)
    (h : cfg.enabled = false ∨ r.success = false ∨ r.segments = []) :
    SegmentProcessor.process cfg r = r := by
  unfold SegmentProcessor.process
  rcases h with h | h | h <;> simp [h]

/-- Witness for C9 at a concrete failed diarization result. -/
theorem process_skip_identity_witness :
    SegmentProcessor.process SegmentProcessingConfig.default
      ⟨false, [⟨"A", 0, 1, 1⟩], [("A", 1)], 1, [], none⟩ =
      ⟨false, [⟨"A", 0, 1, 1⟩], [("A", 1)], 1, [], none⟩ :=
  process_skip_identity SegmentProcessingConfig.default
    ⟨false, [⟨"A", 0, 1, 1⟩], [("A", 1)], 1, [], none⟩ (Or.inr (Or.inl rfl))

/-- C8. On a stage result with an empty segment list, each assessment
function returns the fixed degraded assessment: score 0, not passed, exactly
one issue, of CRITICAL severity, and no computed metrics. -/
theorem empty_input_assessments_critical (expf : ℚ → ℚ)
    (thr : QualityThresholds) (dr : DiarizationResult)
    (tr : TranscriptionResult) (cr : CombinationResult)
    (hd : dr.segments = []) (ht : tr.segments = []) (hc : cr.segments = []) :
    ((assess_diarization_quality thr dr).overall_score = 0 ∧
     (assess_diarization_quality thr dr).passed = false ∧
     (assess_diarization_quality thr dr).issues.length = 1 ∧
     (∀ i ∈ (assess_diarization_quality thr dr).issues,
        i.severity = QualitySeverity.critical) ∧
     (assess_diarization_quality thr dr).metrics = []) ∧
    ((assess_transcription_quality expf thr tr).overall_score = 0 ∧
     (assess_transcription_quality expf thr tr).passed = false ∧
     (assess_transcription_quality expf thr tr).issues.length = 1 ∧
     (∀ i ∈ (assess_transcription_quality expf thr tr).issues,
        i.severity = QualitySeverity.critical) ∧
     (assess_transcription_quality expf thr tr).metrics = []) ∧
    ((assess_combination_quality thr cr).overall_score = 0 ∧
     (assess_combination_quality thr cr).passed = false ∧
     (assess_combination_quality thr cr).issues.length = 1 ∧
     (∀ i ∈ (assess_combination_quality thr cr).issues,
        i.severity = QualitySeverity.critical) ∧
     (assess_combination_quality thr cr).metrics = []) := by
  refine ⟨?_, ?_, ?_⟩
  · simp [assess_diarization_quality, hd]
  · simp [assess_transcription_quality, ht]
  · simp [assess_combination_quality, assess_combination_segments, hc]

/-- Witness for C8 at concrete empty stage results. -/
theorem empty_input_assessments_critical_witness :
    ((assess_diarization_quality QualityThresholds.default
        ⟨true, [], [], 0, [], none⟩).overall_score = 0 ∧
     (assess_diarization_quality QualityThresholds.default
        ⟨true, [], [], 0, [], none⟩).passed = false ∧
     (assess_diarization_quality QualityThresholds.default
        ⟨true, [], [], 0, [], none⟩).issues.length = 1 ∧
     (∀ i ∈ (assess_diarization_quality QualityThresholds.default
        ⟨true, [], [], 0, [], none⟩).issues,
        i.severity = QualitySeverity.critical) ∧
     (assess_diarization_quality QualityThresholds.default
        ⟨true, [], [], 0, [], none⟩).metrics = []) ∧
    ((assess_transcription_quality (fun _ => 1) QualityThresholds.default
        ⟨[], "en"⟩).overall_score = 0 ∧
     (assess_transcription_quality (fun _ => 1) QualityThresholds.default
        ⟨[], "en"⟩).passed = false ∧
     (assess_transcription_quality (fun _ => 1) QualityThresholds.default
        ⟨[], "en"⟩).issues.length = 1 ∧
     (∀ i ∈ (assess_transcription_quality (fun _ => 1) QualityThresholds.default
        ⟨[], "en"⟩).issues, i.severity = QualitySeverity.critical) ∧
     (assess_transcription_quality (fun _ => 1) QualityThresholds.default
        ⟨[], "en"⟩).metrics = []) ∧
    ((assess_combination_quality QualityThresholds.default
        ⟨true, [], 0, []⟩).overall_score = 0 ∧
     (assess_combination_quality QualityThresholds.default
        ⟨true, [], 0, []⟩).passed = false ∧
     (assess_combination_quality QualityThresholds.default
        ⟨true, [], 0, []⟩).issues.length = 1 ∧
     (∀ i ∈ (assess_combination_quality QualityThresholds.default
        ⟨true, [], 0, []⟩).issues, i.severity = QualitySeverity.critical) ∧
     (assess_combination_quality QualityThresholds.default
        ⟨true, [], 0, []⟩).metrics = []) :=
  empty_input_assessments_critical (fun _ => 1) QualityThresholds.default
    ⟨true, [], [], 0, [], none⟩ ⟨[], "en"⟩ ⟨true, [], 0, []⟩ rfl rfl rfl

/-- A combination result whose `EnhancedSegment`s all carry the worst
possible speaker-mapping confidence (`speaker_confidence = 0`). -/
def lowConfCombination : CombinationResult :=
  ⟨true,
   [⟨0, 1, "hello", "A", 0, 1, 0, 0, 0, 1⟩,
    ⟨5, 6, "world", "B", 0, 1, 0, 0, 0, 1⟩],
   2, [("A", 1), ("B", 1)]⟩

/-- The same combination result with perfect speaker-mapping confidence
(`speaker_confidence = 9/10` and matching combined confidence). -/
def highConfCombination : CombinationResult :=
  ⟨true,
   [⟨0, 1, "hello", "A", 9/10, 1, 9/10, 0, 0, 1⟩,
    ⟨5, 6, "world", "B", 9/10, 1, 9/10, 0, 0, 1⟩],
   2, [("A", 1), ("B", 1)]⟩

/-- C1 (code evaluated at the failing input).  Because `EnhancedSegment` has
no attribute named `confidence` (its fields are `speaker_confidence` and
`combined_confidence`), `hasattr(seg, 'confidence')` is false for every
combined segment, so `assess_combination_quality` never reads the segments'
confidence values: on segments whose speaker-mapping confidence is 0 (all of
them ambiguous, confidence below 0.5) it still returns the neutral score
0.35 + 0.3 + 0.1 + 0.1 = 0.85 with no issue and no
`avg_speaker_mapping_confidence` metric, and the assessment is identical
when every confidence is raised to 0.9 — the mapping-confidence and
ambiguous-ratio sub-scores are not computed from the segments' confidence
values, contrary to the claim. -/
theorem combination_confidence_attribute_dead :
    (assess_combination_quality QualityThresholds.default
      lowConfCombination).overall_score = 17/20 ∧
    (assess_combination_quality QualityThresholds.default
      lowConfCombination).passed = true ∧
    (assess_combination_quality QualityThresholds.default
      lowConfCombination).issues = [] ∧
    (assess_combination_quality QualityThresholds.default
      lowConfCombination).metrics.map Prod.fst =
      ["ambiguous_segments_ratio", "num_speakers", "rapid_switch_ratio"] ∧
    assess_combination_quality QualityThresholds.default highConfCombination =
      assess_combination_quality QualityThresholds.default lowConfCombination := by
  norm_num [assess_combination_quality, assess_combination_segments,
    lowConfCombination, highConfCombination, EnhancedSegment.toView, meanQ,
    severityCount, rapid_switch_count, addCount, QualityThresholds.default]
  simp

/-- C7. `should_reprocess` is determined by the assessment's score bands:
at or above 0.85 no reprocessing; below 0.4 reprocessing with the
`use_better_model` strategy; in [0.4, 0.7) reprocessing with the
`apply_postprocessing` strategy whose suggested steps come from
substring-matching the issue messages (with `post_processing` as the
fallback when nothing matches); in [0.7, 0.85) no reprocessing. -/
theorem should_reprocess_thresholds (a : QualityAssessment) :
    (85/100 ≤ a.overall_score → (should_reprocess a).should_reprocess = false) ∧
    (a.overall_score < 4/10 →
      (should_reprocess a).should_reprocess = true ∧
      (should_reprocess a).strategy = some "use_better_model") ∧
    (4/10 ≤ a.overall_score → a.overall_score < 7/10 →
      (should_reprocess a).should_reprocess = true ∧
      (should_reprocess a).strategy = some "apply_postprocessing" ∧
      (should_reprocess a).suggested_processing =
        (if deriveSuggestedProcessing a.issues = [] then ["post_processing"]
         else deriveSuggestedProcessing a.issues)) ∧
    (7/10 ≤ a.overall_score → a.overall_score < 85/100 →
      (should_reprocess a).should_reprocess = false) := by
  refine ⟨?_, ?_, ?_, ?_⟩
  · intro h
    unfold should_reprocess
    rw [if_pos h]
  · intro h
    have h1 : ¬ (85/100 ≤ a.overall_score) := by linarith
    unfold should_reprocess
    rw [if_neg h1, if_pos h]
    exact ⟨rfl, rfl⟩
  · intro h4 h7
    have h1 : ¬ (85/100 ≤ a.overall_score) := by linarith
    have h2 : ¬ (a.overall_score < 4/10) := by linarith
    unfold should_reprocess
    rw [if_neg h1, if_neg h2, if_pos h7]
    exact ⟨rfl, rfl, rfl⟩
  · intro h7 h85
    have h1 : ¬ (85/100 ≤ a.overall_score) := by linarith
    have h2 : ¬ (a.overall_score < 4/10) := by linarith
    have h3 : ¬ (a.overall_score < 7/10) := by linarith
    unfold should_reprocess
    rw [if_neg h1, if_neg h2, if_neg h3]

/-- Witness for C7: a 0.3-score assessment triggers `use_better_model`; a
0.9-score assessment is not reprocessed. -/
theorem should_reprocess_thresholds_witness :
    ((should_reprocess ⟨"diarization", 3/10, false, [], [], [], []⟩).should_reprocess = true ∧
     (should_reprocess ⟨"diarization", 3/10, false, [], [], [], []⟩).strategy =
       some "use_better_model") ∧
    (should_reprocess ⟨"diarization", 9/10, true, [], [], [], []⟩).should_reprocess = false :=
  ⟨(should_reprocess_thresholds ⟨"diarization", 3/10, false, [], [], [], []⟩).2.1
      (by norm_num),
   (should_reprocess_thresholds ⟨"diarization", 9/10, true, [], [], [], []⟩).1
      (by norm_num)⟩

/-- With no speaker regions at all, the assignment loop labels every
transcription segment `UNKNOWN` with confidence 0 (the scoring loop never
fires and the fallback loop has nothing to scan). -/
theorem map_speakers_go_nil_regions (ow dw cw : ℚ) :
    ∀ (ts : List TranscriptionSegment) (prev : Option String),
      map_speakers_go [] ow dw cw prev ts =
        ts.map fun t => mkEnhanced t "UNKNOWN" 0 := by
  intro ts
  induction ts with
  | nil => intro prev; simp [map_speakers_go]
  | cons t rest ih =>
    intro prev
    simp [map_speakers_go, assign_speaker, scan_regions, fallback_scan, ih]

/-- C10. With an empty diarization segment list there are no speaker
regions, and `map_speakers_to_segments` still returns one enhanced segment
per transcription segment, each labeled `UNKNOWN` with
`speaker_confidence = 0` (not the 0.1 fallback, which needs a region). -/
theorem map_speakers_empty_diarization_unknown
    (ts : List TranscriptionSegment) (cw dw ow : ℚ) (h : ts ≠ []) :
    (map_speakers_to_segments [] ts true cw dw ow).length = ts.length ∧
    ∀ e ∈ map_speakers_to_segments [] ts true cw dw ow,
      e.speaker = "UNKNOWN" ∧ e.speaker_confidence = 0 := by
  unfold map_speakers_to_segments
  simp only [if_pos]
  rw [show create_speaker_regions [] 1 = [] from rfl,
      map_speakers_go_nil_regions]
  constructor
  · simp
  · intro e he
    obtain ⟨t, _, ht⟩ := List.mem_map.mp he
    rw [← ht]
    exact ⟨rfl, rfl⟩

/-- Witness for C10 at a concrete one-segment transcript. -/
theorem map_speakers_empty_diarization_unknown_witness :
    (map_speakers_to_segments [] [⟨0, 1, "hi", 0, 0, 1⟩] true (3/10) (4/10)
      (3/10)).length = [(⟨0, 1, "hi", 0, 0, 1⟩ : TranscriptionSegment)].length ∧
    ∀ e ∈ map_speakers_to_segments [] [⟨0, 1, "hi", 0, 0, 1⟩] true (3/10)
      (4/10) (3/10), e.speaker = "UNKNOWN" ∧ e.speaker_confidence = 0 :=
  map_speakers_empty_diarization_unknown [⟨0, 1, "hi", 0, 0, 1⟩]
    (3/10) (4/10) (3/10) (by simp)

/-- The assignment loop produces exactly one output per input, in order,
preserving `start`, `end` and `text` (the enhanced segment is built from the
transcription segment's own fields). -/
theorem map_speakers_go_shape (regions : List SpeakerRegion) (ow dw cw : ℚ) :
    ∀ (ts : List TranscriptionSegment) (prev : Option String),
      (map_speakers_go regions ow dw cw prev ts).map
          (fun e => (e.start, e.stop, e.text)) =
        ts.map fun t => (t.start, t.stop, t.text) := by
  intro ts
  induction ts with
  | nil => intro prev; simp [map_speakers_go]
  | cons t rest ih =>
    intro prev
    simp [map_speakers_go, mkEnhanced, ih]

/-- C3. `map_speakers_to_segments` is cardinality-preserving: one enhanced
segment per input transcription segment, in the same order, carrying that
input's `start`, `end` and `text` — no input is dropped or duplicated. -/
theorem map_speakers_cardinality_preserving
    (ds : List RawSegment) (ts : List TranscriptionSegment)
    (use_regions : Bool) (cw dw ow : ℚ) (h : ts ≠ []) :
    (map_speakers_to_segments ds ts use_regions cw dw ow).length = ts.length ∧
    (map_speakers_to_segments ds ts use_regions cw dw ow).map
        (fun e => (e.start, e.stop, e.text)) =
      ts.map fun t => (t.start, t.stop, t.text) := by
  have hs := map_speakers_go_shape
    (if use_regions then create_speaker_regions ds 1
     else ds.map fun seg => ⟨seg.speaker, seg.start, seg.stop, seg.duration, 1, 1⟩)
    ow dw cw ts none
  unfold map_speakers_to_segments
  refine ⟨?_, hs⟩
  have := congrArg List.length hs
  simpa using this

/-- Witness for C3 at concrete inputs. -/
theorem map_speakers_cardinality_preserving_witness :
    (map_speakers_to_segments [⟨"A", 0, 1, 1⟩]
      [⟨0, 1, "hi", 0, 0, 1⟩, ⟨1, 2, "yo", 0, 0, 1⟩] true (3/10) (4/10)
      (3/10)).length =
      [(⟨0, 1, "hi", 0, 0, 1⟩ : TranscriptionSegment), ⟨1, 2, "yo", 0, 0, 1⟩].length ∧
    (map_speakers_to_segments [⟨"A", 0, 1, 1⟩]
      [⟨0, 1, "hi", 0, 0, 1⟩, ⟨1, 2, "yo", 0, 0, 1⟩] true (3/10) (4/10)
      (3/10)).map (fun e => (e.start, e.stop, e.text)) =
      [(⟨0, 1, "hi", 0, 0, 1⟩ : TranscriptionSegment), ⟨1, 2, "yo", 0, 0, 1⟩].map
        fun t => (t.start, t.stop, t.text) :=
  map_speakers_cardinality_preserving [⟨"A", 0, 1, 1⟩]
    [⟨0, 1, "hi", 0, 0, 1⟩, ⟨1, 2, "yo", 0, 0, 1⟩] true (3/10) (4/10) (3/10)
    (by simp)

/-- If a transcription segment overlaps no region, the scoring loop leaves
its accumulator untouched (every region hits the `continue`). -/
theorem scan_regions_skip (prev : Option String) (t : TranscriptionSegment)
    (ow dw cw : ℚ) :
    ∀ (rs : List SpeakerRegion) (acc : BestAcc),
      (∀ r ∈ rs, overlapDur t r = 0) →
      scan_regions prev t ow dw cw rs acc = acc := by
  intro rs
  induction rs with
  | nil => intro acc _; rfl
  | cons r rest ih =>
    intro acc h
    have h0 : overlapDur t r = 0 := h r (List.mem_cons_self r rest)
    simp only [scan_regions, if_pos h0]
    exact ih acc fun r2 hr2 => h r2 (List.mem_cons_of_mem r hr2)

/-- Invariant of the fallback loop once a finite minimum is installed: the
final confidence is 0.1, the final minimum is at most the incoming one and
at most every boundary distance scanned, and the final speaker either is the
incoming one (minimum unchanged) or comes from a scanned region whose
boundary distance equals the final minimum. -/
theorem fallback_scan_inv (t : TranscriptionSegment) :
    ∀ (rest : List SpeakerRegion) (m : ℚ) (spk : String),
      ∃ m2 spk2,
        fallback_scan t rest (some m, spk, 1/10) = (some m2, spk2, 1/10) ∧
        m2 ≤ m ∧ (∀ r ∈ rest, m2 ≤ boundaryDist t r) ∧
        ((spk2 = spk ∧ m2 = m) ∨
          ∃ r ∈ rest, spk2 = r.speaker ∧ m2 = boundaryDist t r) := by
  intro rest
  induction rest with
  | nil =>
    intro m spk
    exact ⟨m, spk, rfl, le_refl m, by simp, Or.inl ⟨rfl, rfl⟩⟩
  | cons r rest ih =>
    intro m spk
    by_cases hd : boundaryDist t r < m
    · obtain ⟨m2, spk2, heq, hle, hall, hcase⟩ := ih (boundaryDist t r) r.speaker
      refine ⟨m2, spk2, ?_, ?_, ?_, ?_⟩
      · simp only [fallback_scan, if_pos hd]; exact heq
      · exact le_of_lt (lt_of_le_of_lt hle hd)
      · intro r2 hr2
        rcases List.mem_cons.mp hr2 with h2 | h2
        · rw [h2]; exact hle
        · exact hall r2 h2
      · rcases hcase with ⟨hspk, hm⟩ | ⟨r2, hr2, hspk, hm⟩
        · exact Or.inr ⟨r, List.mem_cons_self r rest, hspk, hm⟩
        · exact Or.inr ⟨r2, List.mem_cons_of_mem r hr2, hspk, hm⟩
    · obtain ⟨m2, spk2, heq, hle, hall, hcase⟩ := ih m spk
      refine ⟨m2, spk2, ?_, hle, ?_, ?_⟩
      · simp only [fallback_scan, if_neg hd]; exact heq
      · intro r2 hr2
        rcases List.mem_cons.mp hr2 with h2 | h2
        · rw [h2]; exact le_trans hle (le_of_not_lt hd)
        · exact hall r2 h2
      · rcases hcase with ⟨hspk, hm⟩ | ⟨r2, hr2, hspk, hm⟩
        · exact Or.inl ⟨hspk, hm⟩
        · exact Or.inr ⟨r2, List.mem_cons_of_mem r hr2, hspk, hm⟩

/-- If a transcription segment overlaps no region and at least one region
exists, the assignment is the fallback: confidence exactly 0.1 and the
speaker of a region whose boundary distance is minimal among all regions. -/
theorem assign_speaker_no_overlap (regions : List SpeakerRegion)
    (prev : Option String) (ow dw cw : ℚ) (t : TranscriptionSegment)
    (hne : regions ≠ []) (hov : ∀ r ∈ regions, overlapDur t r = 0) :
    (assign_speaker regions prev ow dw cw t).2 = 1/10 ∧
    ∃ r ∈ regions, (assign_speaker regions prev ow dw cw t).1 = r.speaker ∧
      ∀ r2 ∈ regions, boundaryDist t r ≤ boundaryDist t r2 := by
  obtain ⟨r0, rest, rfl⟩ := List.exists_cons_of_ne_nil hne
  have hscan := scan_regions_skip prev t ow dw cw (r0 :: rest)
    ⟨-1, "UNKNOWN", 0⟩ hov
  obtain ⟨m2, spk2, heq, hle, hall, hcase⟩ :=
    fallback_scan_inv t rest (boundaryDist t r0) r0.speaker
  have hfb : fallback_scan t (r0 :: rest) (none, "UNKNOWN", 0) =
      (some m2, spk2, 1/10) := by
    simp only [fallback_scan]
    exact heq
  have hasg : assign_speaker (r0 :: rest) prev ow dw cw t = (spk2, 1/10) := by
    unfold assign_speaker
    rw [hscan]
    dsimp only
    rw [if_pos (show (-1 : ℚ) < 0 by norm_num), hfb]
  rw [hasg]
  refine ⟨rfl, ?_⟩
  rcases hcase with ⟨hspk, hm⟩ | ⟨r2, hr2, hspk, hm⟩
  · refine ⟨r0, List.mem_cons_self r0 rest, hspk, ?_⟩
    intro r3 hr3
    rcases List.mem_cons.mp hr3 with h3 | h3
    · rw [h3]
    · rw [← hm]
      exact hall r3 h3
  · refine ⟨r2, List.mem_cons_of_mem r0 hr2, hspk, ?_⟩
    intro r3 hr3
    rcases List.mem_cons.mp hr3 with h3 | h3
    · rw [h3, ← hm]
      exact hle
    · rw [← hm]
      exact hall r3 h3

/-- The `i`-th output of the assignment loop is built from the `i`-th input
by `assign_speaker` under some `previous_speaker` state. -/
theorem map_speakers_go_get (regions : List SpeakerRegion) (ow dw cw : ℚ) :
    ∀ (ts : List TranscriptionSegment) (prev : Option String) (i : ℕ)
      (hi : i < ts.length),
      ∃ (hi2 : i < (map_speakers_go regions ow dw cw prev ts).length)
        (p : Option String),
        (map_speakers_go regions ow dw cw prev ts).get ⟨i, hi2⟩ =
          mkEnhanced (ts.get ⟨i, hi⟩)
            (assign_speaker regions p ow dw cw (ts.get ⟨i, hi⟩)).1
            (assign_speaker regions p ow dw cw (ts.get ⟨i, hi⟩)).2 := by
  intro ts
  induction ts with
  | nil => intro prev i hi; exact absurd hi (by simp)
  | cons t rest ih =>
    intro prev i hi
    match i with
    | 0 =>
      refine ⟨by simp [map_speakers_go], prev, ?_⟩
      rfl
    | Nat.succ j =>
      have hj : j < rest.length := Nat.lt_of_succ_lt_succ hi
      obtain ⟨hi2, p, hp⟩ :=
        ih (some (assign_speaker regions prev ow dw cw t).1) j hj
      refine ⟨?_, p, ?_⟩
      · simpa [map_speakers_go] using Nat.succ_lt_succ hi2
      · simpa [map_speakers_go] using hp

/-- C6. If a transcription segment's interval has zero overlap with every
speaker region and at least one region exists, `map_speakers_to_segments`
assigns it the speaker of a region with minimal boundary distance (smallest
of the four edge gaps) and sets its `speaker_confidence` to exactly 0.1. -/
theorem map_speakers_fallback_boundary_distance
    (ds : List RawSegment) (ts : List TranscriptionSegment) (cw dw ow : ℚ)
    (i : ℕ) (hi : i < ts.length)
    (hne : create_speaker_regions ds 1 ≠ [])
    (hov : ∀ r ∈ create_speaker_regions ds 1,
      overlapDur (ts.get ⟨i, hi⟩) r = 0) :
    ∃ (hi2 : i < (map_speakers_to_segments ds ts true cw dw ow).length),
      ((map_speakers_to_segments ds ts true cw dw ow).get
        ⟨i, hi2⟩).speaker_confidence = 1/10 ∧
      ∃ r ∈ create_speaker_regions ds 1,
        ((map_speakers_to_segments ds ts true cw dw ow).get
          ⟨i, hi2⟩).speaker = r.speaker ∧
        ∀ r2 ∈ create_speaker_regions ds 1,
          boundaryDist (ts.get ⟨i, hi⟩) r ≤ boundaryDist (ts.get ⟨i, hi⟩) r2 := by
  suffices hgo : ∃ (hi2 : i <
      (map_speakers_go (create_speaker_regions ds 1) ow dw cw none ts).length),
      ((map_speakers_go (create_speaker_regions ds 1) ow dw cw none ts).get
        ⟨i, hi2⟩).speaker_confidence = 1/10 ∧
      ∃ r ∈ create_speaker_regions ds 1,
        ((map_speakers_go (create_speaker_regions ds 1) ow dw cw none ts).get
          ⟨i, hi2⟩).speaker = r.speaker ∧
        ∀ r2 ∈ create_speaker_regions ds 1,
          boundaryDist (ts.get ⟨i, hi⟩) r ≤ boundaryDist (ts.get ⟨i, hi⟩) r2 by
    exact hgo
  obtain ⟨hi2, p, hp⟩ :=
    map_speakers_go_get (create_speaker_regions ds 1) ow dw cw ts none i hi
  obtain ⟨hconf, r, hr, hspk, hmin⟩ :=
    assign_speaker_no_overlap (create_speaker_regions ds 1) p ow dw cw
      (ts.get ⟨i, hi⟩) hne hov
  refine ⟨hi2, ?_, ⟨r, hr, ?_, hmin⟩⟩
  · rw [hp]
    dsimp only [mkEnhanced]
    exact hconf
  · rw [hp]
    dsimp only [mkEnhanced]
    exact hspk

/-- Witness for C6: one region `A` on [0, 1] and one transcript segment on
[5, 6] far outside it. -/
theorem map_speakers_fallback_boundary_distance_witness :
    ∃ (hi2 : 0 < (map_speakers_to_segments [⟨"A", 0, 1, 1⟩]
        [⟨5, 6, "hi", 0, 0, 1⟩] true (3/10) (4/10) (3/10)).length),
      ((map_speakers_to_segments [⟨"A", 0, 1, 1⟩] [⟨5, 6, "hi", 0, 0, 1⟩]
        true (3/10) (4/10) (3/10)).get ⟨0, hi2⟩).speaker_confidence = 1/10 ∧
      ∃ r ∈ create_speaker_regions [⟨"A", 0, 1, 1⟩] 1,
        ((map_speakers_to_segments [⟨"A", 0, 1, 1⟩] [⟨5, 6, "hi", 0, 0, 1⟩]
          true (3/10) (4/10) (3/10)).get ⟨0, hi2⟩).speaker = r.speaker ∧
        ∀ r2 ∈ create_speaker_regions [⟨"A", 0, 1, 1⟩] 1,
          boundaryDist (([⟨5, 6, "hi", 0, 0, 1⟩] :
              List TranscriptionSegment).get ⟨0, by norm_num⟩) r ≤
            boundaryDist (([⟨5, 6, "hi", 0, 0, 1⟩] :
              List TranscriptionSegment).get ⟨0, by norm_num⟩) r2 :=
  map_speakers_fallback_boundary_distance [⟨"A", 0, 1, 1⟩]
    [⟨5, 6, "hi", 0, 0, 1⟩] (3/10) (4/10) (3/10) 0 (by norm_num)
    (by simp [create_speaker_regions, create_speaker_regions_go])
    (by
      intro r hr
      simp only [create_speaker_regions, create_speaker_regions_go,
        RegionAcc.flush, List.mem_singleton] at hr
      subst hr
      simp [overlapDur])

/-- The micro-segment filter returns a sublist of its input. -/
theorem filter_micro_go_sublist (d : ℚ) :
    ∀ l : List RawSegment, (filter_micro_go d l).1.Sublist l := by
  intro l
  induction l with
  | nil => simp [filter_micro_go]
  | cons s rest ih =>
    rcases hres : filter_micro_go d rest with ⟨l2, n2⟩
    rw [hres] at ih
    simp only [filter_micro_go, hres]
    by_cases hd : s.duration ≥ d
    · rw [if_pos hd]
      exact ih.cons₂ s
    · rw [if_neg hd]
      exact ih.cons s

/-- The merge loop emits at most one segment more than the remaining input
(the running accumulator). -/
theorem merge_consecutive_go_length (g : ℚ) :
    ∀ (l : List RawSegment) (cur : RawSegment),
      (merge_consecutive_go g cur l).1.length ≤ l.length + 1 := by
  intro l
  induction l with
  | nil => intro cur; simp [merge_consecutive_go]
  | cons n rest ih =>
    intro cur
    simp only [merge_consecutive_go]
    by_cases hc : n.speaker = cur.speaker ∧ n.start - cur.stop ≤ g
    · rw [if_pos hc]
      rcases hres : merge_consecutive_go g
        { cur with stop := n.stop, duration := n.stop - cur.start } rest with ⟨l2, c2⟩
      have := ih { cur with stop := n.stop, duration := n.stop - cur.start }
      rw [hres] at this
      simpa using Nat.le_trans this (by simp)
    · rw [if_neg hc]
      rcases hres : merge_consecutive_go g n rest with ⟨l2, c2⟩
      have := ih n
      rw [hres] at this
      simpa using Nat.succ_le_succ this

/-- The smoothing reassignment pass preserves the segment count. -/
theorem smooth_reassign_go_length (w : ℚ) :
    ∀ (l : List RawSegment) (prev : RawSegment),
      (smooth_reassign_go w prev l).1.length = l.length := by
  intro l
  induction l with
  | nil => intro prev; rfl
  | cons curr rest ih =>
    intro prev
    match rest with
    | [] => rfl
    | next :: rest2 =>
      simp only [smooth_reassign_go]
      by_cases hc : curr.duration < w ∧ prev.speaker = next.speaker ∧
          prev.speaker ≠ curr.speaker
      · rw [if_pos hc]
        rcases hres : smooth_reassign_go w { curr with speaker := prev.speaker }
          (next :: rest2) with ⟨l2, c2⟩
        have := ih { curr with speaker := prev.speaker }
        rw [hres] at this
        simpa using this
      · rw [if_neg hc]
        rcases hres : smooth_reassign_go w curr (next :: rest2) with ⟨l2, c2⟩
        have := ih curr
        rw [hres] at this
        simpa using this

/-- The gap-free re-merge emits at most one segment more than the remaining
input. -/
theorem adjacent_merge_go_length :
    ∀ (l : List RawSegment) (cur : RawSegment),
      (adjacent_merge_go cur l).length ≤ l.length + 1 := by
  intro l
  induction l with
  | nil => intro cur; simp [adjacent_merge_go]
  | cons n rest ih =>
    intro cur
    simp only [adjacent_merge_go]
    by_cases hc : n.speaker = cur.speaker
    · rw [if_pos hc]
      exact Nat.le_trans (ih _) (by simp)
    · rw [if_neg hc]
      simpa using Nat.succ_le_succ (ih n)

/-- `_filter_micro_segments` never increases the segment count. -/
theorem filter_micro_segments_length (cfg : SegmentProcessingConfig)
    (segs : List RawSegment) (stats : SegmentProcessingStats) :
    (filter_micro_segments cfg segs stats).1.length ≤ segs.length := by
  rcases hres : filter_micro_go cfg.min_segment_duration segs with ⟨l2, n2⟩
  have h := (filter_micro_go_sublist cfg.min_segment_duration segs).length_le
  rw [hres] at h
  simpa [filter_micro_segments, hres] using h

/-- `_merge_consecutive_segments` never increases the segment count. -/
theorem merge_consecutive_segments_length (cfg : SegmentProcessingConfig)
    (segs : List RawSegment) (stats : SegmentProcessingStats) :
    (merge_consecutive_segments cfg segs stats).1.length ≤ segs.length := by
  match segs with
  | [] => simp [merge_consecutive_segments]
  | first :: rest =>
    rcases hres : merge_consecutive_go cfg.merge_gap_threshold first rest
      with ⟨l2, c2⟩
    have h := merge_consecutive_go_length cfg.merge_gap_threshold rest first
    rw [hres] at h
    simpa [merge_consecutive_segments, hres] using h

/-- `_smooth_speaker_transitions` never increases the segment count. -/
theorem smooth_speaker_transitions_length (cfg : SegmentProcessingConfig)
    (segs : List RawSegment) (stats : SegmentProcessingStats) :
    (smooth_speaker_transitions cfg segs stats).1.length ≤ segs.length := by
  unfold smooth_speaker_transitions
  by_cases hlen : segs.length < 3
  · rw [if_pos hlen]
  · rw [if_neg hlen]
    match segs with
    | [] => simp
    | first :: rest =>
      rcases hres : smooth_reassign_go cfg.smoothing_window first rest
        with ⟨tl, c⟩
      have h1 := adjacent_merge_go_length tl first
      have h2 := smooth_reassign_go_length cfg.smoothing_window rest first
      rw [hres] at h2
      simp only [hres]
      simp only at h2
      calc (adjacent_merge_go first tl).length ≤ tl.length + 1 := h1
        _ = rest.length + 1 := by rw [h2]
        _ = (first :: rest).length := by simp

/-- In the main branch, the processed segments are the result of filtering,
merging and smoothing the input segments (with the statistics threaded
through as in the source). -/
theorem process_segments_spec (cfg : SegmentProcessingConfig)
    (r : DiarizationResult) (h1 : cfg.enabled = true) (h2 : r.success = true)
    (h3 : r.segments ≠ []) :
    (SegmentProcessor.process cfg r).segments =
      (smooth_speaker_transitions cfg
        (merge_consecutive_segments cfg
          (filter_micro_segments cfg r.segments
            { SegmentProcessingStats.init with
                original_segment_count := r.segments.length,
                speaker_switches_before := count_speaker_switches r.segments,
                avg_segment_duration_before :=
                  calculate_avg_duration r.segments }).1
          (filter_micro_segments cfg r.segments
            { SegmentProcessingStats.init with
                original_segment_count := r.segments.length,
                speaker_switches_before := count_speaker_switches r.segments,
                avg_segment_duration_before :=
                  calculate_avg_duration r.segments }).2).1
        (merge_consecutive_segments cfg
          (filter_micro_segments cfg r.segments
            { SegmentProcessingStats.init with
                original_segment_count := r.segments.length,
                speaker_switches_before := count_speaker_switches r.segments,
                avg_segment_duration_before :=
                  calculate_avg_duration r.segments }).1
          (filter_micro_segments cfg r.segments
            { SegmentProcessingStats.init with
                original_segment_count := r.segments.length,
                speaker_switches_before := count_speaker_switches r.segments,
                avg_segment_duration_before :=
                  calculate_avg_duration r.segments }).2).2).1 := by
  unfold SegmentProcessor.process
  rw [h1, h2]
  simp only [Bool.true_eq_false, if_false, if_neg h3]

/-- C4. With processing enabled and a successful prior stage,
`SegmentProcessor.process` never increases the number of segments. -/
theorem process_segment_count_monotone (cfg : SegmentProcessingConfig)
    (r : DiarizationResult) (h1 : cfg.enabled = true)
    (h2 : r.success = true) :
    (SegmentProcessor.process cfg r).segments.length ≤ r.segments.length := by
  by_cases h3 : r.segments = []
  · unfold SegmentProcessor.process
    simp [h3]
  · rw [process_segments_spec cfg r h1 h2 h3]
    exact le_trans (smooth_speaker_transitions_length cfg _ _)
      (le_trans (merge_consecutive_segments_length cfg _ _)
        (filter_micro_segments_length cfg _ _))

/-- Witness for C4 at a concrete three-segment input. -/
theorem process_segment_count_monotone_witness :
    (SegmentProcessor.process SegmentProcessingConfig.default
      ⟨true, [⟨"A", 0, 2, 2⟩, ⟨"B", 2, 25/10, 1/2⟩, ⟨"A", 25/10, 45/10, 2⟩],
        [("A", 4), ("B", 1/2)], 2, [], none⟩).segments.length ≤
      ([⟨"A", 0, 2, 2⟩, ⟨"B", 2, 25/10, 1/2⟩, ⟨"A", 25/10, 45/10, 2⟩] :
        List RawSegment).length :=
  process_segment_count_monotone SegmentProcessingConfig.default
    ⟨true, [⟨"A", 0, 2, 2⟩, ⟨"B", 2, 25/10, 1/2⟩, ⟨"A", 25/10, 45/10, 2⟩],
      [("A", 4), ("B", 1/2)], 2, [], none⟩ rfl rfl

/-- Discrete distance between speaker labels: 0 if equal, 1 otherwise. -/
def dN (a b : String) : ℕ := if a = b then 0 else 1

/-- Number of adjacent speaker changes in a list of speaker labels. -/
def switchCount : List String → ℕ
  | a :: b :: rest => dN a b + switchCount (b :: rest)
  | _ => 0

/-- `_count_speaker_switches` counts the adjacent changes of the speaker
label sequence. -/
theorem count_speaker_switches_eq :
    ∀ l : List RawSegment,
      count_speaker_switches l = switchCount (l.map (·.speaker)) := by
  intro l
  induction l with
  | nil => rfl
  | cons a rest ih =>
    match rest, ih with
    | [], _ => rfl
    | b :: rest2, ih =>
      simp only [count_speaker_switches, switchCount, List.map_cons] at ih ⊢
      rw [ih]
      congr 1
      unfold dN
      by_cases h : b.speaker = a.speaker
      · simp [h]
      · have h2 : ¬ a.speaker = b.speaker := fun hx => h hx.symm
        simp [h, h2]

/-- Triangle inequality for the discrete speaker distance. -/
theorem dN_triangle (a b c : String) : dN a c ≤ dN a b + dN b c := by
  unfold dN
  by_cases h1 : a = b <;> by_cases h2 : b = c <;> by_cases h3 : a = c <;>
    simp_all

/-- Replacing the head of the comparison list costs at most the distance
between the two heads. -/
theorem switchCount_head_swap (a b : String) (l : List String) :
    switchCount (a :: l) ≤ dN a b + switchCount (b :: l) := by
  match l with
  | [] => exact Nat.zero_le _
  | c :: t =>
    show dN a c + switchCount (c :: t) ≤ dN a b + (dN b c + switchCount (c :: t))
    rw [← Nat.add_assoc]
    exact Nat.add_le_add_right (dN_triangle a b c) _

/-- Prepending an element never decreases the switch count. -/
theorem switchCount_le_cons (b : String) (l : List String) :
    switchCount l ≤ switchCount (b :: l) := by
  match l with
  | [] => exact Nat.zero_le _
  | c :: t =>
    show switchCount (c :: t) ≤ dN b c + switchCount (c :: t)
    exact Nat.le_add_left _ _

/-- Switch count is monotone under sublists sharing a common head. -/
theorem switchCount_sublist_cons {l1 l2 : List String} (h : l1.Sublist l2) :
    ∀ a, switchCount (a :: l1) ≤ switchCount (a :: l2) := by
  induction h with
  | slnil => intro a; exact le_refl _
  | cons b h ih =>
    intro a
    calc switchCount (a :: _) ≤ dN a b + switchCount (b :: _) :=
          switchCount_head_swap a b _
      _ ≤ dN a b + switchCount (b :: _) := Nat.add_le_add_left (ih b) _
      _ = switchCount (a :: b :: _) := rfl
  | cons₂ b h ih =>
    intro a
    show dN a b + switchCount (b :: _) ≤ dN a b + switchCount (b :: _)
    exact Nat.add_le_add_left (ih b) _

/-- Switch count is monotone under sublists. -/
theorem switchCount_sublist {l1 l2 : List String} (h : l1.Sublist l2) :
    switchCount l1 ≤ switchCount l2 := by
  induction h with
  | slnil => exact le_refl _
  | cons b h ih => exact Nat.le_trans ih (switchCount_le_cons b _)
  | cons₂ b h ih => exact switchCount_sublist_cons h b

/-- The merge loop's first output segment carries the accumulator's
speaker. -/
theorem merge_consecutive_go_head (g : ℚ) :
    ∀ (l : List RawSegment) (cur : RawSegment),
      ∃ t2, (merge_consecutive_go g cur l).1.map (·.speaker) =
        cur.speaker :: t2 := by
  intro l
  induction l with
  | nil => intro cur; exact ⟨[], rfl⟩
  | cons n rest ih =>
    intro cur
    simp only [merge_consecutive_go]
    by_cases hc : n.speaker = cur.speaker ∧ n.start - cur.stop ≤ g
    · rw [if_pos hc]
      rcases hres : merge_consecutive_go g
        { cur with stop := n.stop, duration := n.stop - cur.start } rest
        with ⟨l2, c2⟩
      obtain ⟨t2, ht2⟩ := ih { cur with stop := n.stop, duration := n.stop - cur.start }
      rw [hres] at ht2
      exact ⟨t2, ht2⟩
    · rw [if_neg hc]
      rcases hres : merge_consecutive_go g n rest with ⟨l2, c2⟩
      exact ⟨l2.map (·.speaker), by simp⟩

/-- Merging consecutive same-speaker segments never increases the switch
count of the speaker sequence (it only collapses equal-speaker neighbors). -/
theorem merge_consecutive_go_switch (g : ℚ) :
    ∀ (l : List RawSegment) (cur : RawSegment),
      switchCount ((merge_consecutive_go g cur l).1.map (·.speaker)) ≤
        switchCount (cur.speaker :: l.map (·.speaker)) := by
  intro l
  induction l with
  | nil => intro cur; exact le_refl _
  | cons n rest ih =>
    intro cur
    simp only [merge_consecutive_go, List.map_cons]
    by_cases hc : n.speaker = cur.speaker ∧ n.start - cur.stop ≤ g
    · rw [if_pos hc]
      rcases hres : merge_consecutive_go g
        { cur with stop := n.stop, duration := n.stop - cur.start } rest
        with ⟨l2, c2⟩
      have hih := ih { cur with stop := n.stop, duration := n.stop - cur.start }
      rw [hres] at hih
      refine Nat.le_trans hih ?_
      show switchCount (cur.speaker :: rest.map (·.speaker)) ≤
        switchCount (cur.speaker :: n.speaker :: rest.map (·.speaker))
      rw [hc.1]
      show switchCount (cur.speaker :: rest.map (·.speaker)) ≤
        dN cur.speaker cur.speaker + switchCount (cur.speaker :: rest.map (·.speaker))
      exact Nat.le_add_left _ _
    · rw [if_neg hc]
      rcases hres : merge_consecutive_go g n rest with ⟨l2, c2⟩
      obtain ⟨t2, ht2⟩ := merge_consecutive_go_head g rest n
      rw [hres] at ht2
      have hih := ih n
      rw [hres] at hih
      show switchCount (cur.speaker :: l2.map (·.speaker)) ≤
        dN cur.speaker n.speaker + switchCount (n.speaker :: rest.map (·.speaker))
      rw [ht2]
      show dN cur.speaker n.speaker + switchCount (n.speaker :: t2) ≤
        dN cur.speaker n.speaker + switchCount (n.speaker :: rest.map (·.speaker))
      refine Nat.add_le_add_left ?_ _
      rw [← ht2]
      exact hih

/-- The gap-free re-merge's first output segment carries the accumulator's
speaker. -/
theorem adjacent_merge_go_head :
    ∀ (l : List RawSegment) (cur : RawSegment),
      ∃ t2, (adjacent_merge_go cur l).map (·.speaker) = cur.speaker :: t2 := by
  intro l
  induction l with
  | nil => intro cur; exact ⟨[], rfl⟩
  | cons n rest ih =>
    intro cur
    simp only [adjacent_merge_go]
    by_cases hc : n.speaker = cur.speaker
    · rw [if_pos hc]
      exact ih { cur with stop := n.stop, duration := n.stop - cur.start }
    · rw [if_neg hc]
      exact ⟨(adjacent_merge_go n rest).map (·.speaker), by simp⟩

/-- The gap-free re-merge never increases the switch count. -/
theorem adjacent_merge_go_switch :
    ∀ (l : List RawSegment) (cur : RawSegment),
      switchCount ((adjacent_merge_go cur l).map (·.speaker)) ≤
        switchCount (cur.speaker :: l.map (·.speaker)) := by
  intro l
  induction l with
  | nil => intro cur; exact le_refl _
  | cons n rest ih =>
    intro cur
    simp only [adjacent_merge_go, List.map_cons]
    by_cases hc : n.speaker = cur.speaker
    · rw [if_pos hc]
      refine Nat.le_trans (ih { cur with stop := n.stop, duration := n.stop - cur.start }) ?_
      show switchCount (cur.speaker :: rest.map (·.speaker)) ≤
        switchCount (cur.speaker :: n.speaker :: rest.map (·.speaker))
      rw [hc]
      show switchCount (cur.speaker :: rest.map (·.speaker)) ≤
        dN cur.speaker cur.speaker + switchCount (cur.speaker :: rest.map (·.speaker))
      exact Nat.le_add_left _ _
    · rw [if_neg hc]
      obtain ⟨t2, ht2⟩ := adjacent_merge_go_head rest n
      show switchCount (cur.speaker :: (adjacent_merge_go n rest).map (·.speaker)) ≤
        dN cur.speaker n.speaker + switchCount (n.speaker :: rest.map (·.speaker))
      rw [ht2]
      show dN cur.speaker n.speaker + switchCount (n.speaker :: t2) ≤
        dN cur.speaker n.speaker + switchCount (n.speaker :: rest.map (·.speaker))
      refine Nat.add_le_add_left ?_ _
      rw [← ht2]
      exact ih n

/-- The smoothing reassignment pass never increases the switch count of the
sequence headed by the (fixed) first segment. -/
theorem smooth_reassign_go_switch (w : ℚ) :
    ∀ (l : List RawSegment) (prev : RawSegment),
      switchCount (prev.speaker ::
          (smooth_reassign_go w prev l).1.map (·.speaker)) ≤
        switchCount (prev.speaker :: l.map (·.speaker)) := by
  intro l
  induction l with
  | nil => intro prev; exact le_refl _
  | cons curr rest ih =>
    intro prev
    match rest with
    | [] => exact le_refl _
    | next :: rest2 =>
      simp only [smooth_reassign_go, List.map_cons]
      by_cases hc : curr.duration < w ∧ prev.speaker = next.speaker ∧
          prev.speaker ≠ curr.speaker
      · rw [if_pos hc]
        rcases hres : smooth_reassign_go w { curr with speaker := prev.speaker }
          (next :: rest2) with ⟨l2, c2⟩
        have hih := ih { curr with speaker := prev.speaker }
        rw [hres] at hih
        simp only at hih
        show switchCount (prev.speaker :: prev.speaker :: l2.map (·.speaker)) ≤
          dN prev.speaker curr.speaker +
            (dN curr.speaker next.speaker +
              switchCount (next.speaker :: rest2.map (·.speaker)))
        have h1 : switchCount (prev.speaker :: prev.speaker :: l2.map (·.speaker)) =
            switchCount (prev.speaker :: l2.map (·.speaker)) := by
          show dN prev.speaker prev.speaker + _ = _
          simp [dN]
        rw [h1]
        refine Nat.le_trans hih ?_
        show dN prev.speaker next.speaker +
            switchCount (next.speaker :: rest2.map (·.speaker)) ≤ _
        have h2 : dN prev.speaker next.speaker = 0 := by simp [dN, hc.2.1]
        rw [h2, Nat.zero_add]
        exact Nat.le_trans (Nat.le_add_left _ (dN curr.speaker next.speaker))
          (Nat.le_add_left _ (dN prev.speaker curr.speaker))
      · rw [if_neg hc]
        rcases hres : smooth_reassign_go w curr (next :: rest2) with ⟨l2, c2⟩
        have hih := ih curr
        rw [hres] at hih
        simp only at hih
        show switchCount (prev.speaker :: curr.speaker :: l2.map (·.speaker)) ≤
          dN prev.speaker curr.speaker +
            (dN curr.speaker next.speaker +
              switchCount (next.speaker :: rest2.map (·.speaker)))
        show dN prev.speaker curr.speaker +
            switchCount (curr.speaker :: l2.map (·.speaker)) ≤ _
        exact Nat.add_le_add_left hih _

/-- `_filter_micro_segments` never increases the switch count. -/
theorem filter_micro_segments_switch (cfg : SegmentProcessingConfig)
    (segs : List RawSegment) (stats : SegmentProcessingStats) :
    switchCount ((filter_micro_segments cfg segs stats).1.map (·.speaker)) ≤
      switchCount (segs.map (·.speaker)) := by
  rcases hres : filter_micro_go cfg.min_segment_duration segs with ⟨l2, n2⟩
  have hsub := (filter_micro_go_sublist cfg.min_segment_duration segs).map
    (·.speaker)
  rw [hres] at hsub
  simpa [filter_micro_segments, hres] using switchCount_sublist hsub

/-- `_merge_consecutive_segments` never increases the switch count. -/
theorem merge_consecutive_segments_switch (cfg : SegmentProcessingConfig)
    (segs : List RawSegment) (stats : SegmentProcessingStats) :
    switchCount ((merge_consecutive_segments cfg segs stats).1.map (·.speaker)) ≤
      switchCount (segs.map (·.speaker)) := by
  match segs with
  | [] => simp [merge_consecutive_segments, switchCount]
  | first :: rest =>
    rcases hres : merge_consecutive_go cfg.merge_gap_threshold first rest
      with ⟨l2, c2⟩
    have h := merge_consecutive_go_switch cfg.merge_gap_threshold rest first
    rw [hres] at h
    simpa [merge_consecutive_segments, hres] using h

/-- `_smooth_speaker_transitions` never increases the switch count. -/
theorem smooth_speaker_transitions_switch (cfg : SegmentProcessingConfig)
    (segs : List RawSegment) (stats : SegmentProcessingStats) :
    switchCount ((smooth_speaker_transitions cfg segs stats).1.map (·.speaker)) ≤
      switchCount (segs.map (·.speaker)) := by
  unfold smooth_speaker_transitions
  by_cases hlen : segs.length < 3
  · rw [if_pos hlen]
  · rw [if_neg hlen]
    match segs with
    | [] => simp
    | first :: rest =>
      rcases hres : smooth_reassign_go cfg.smoothing_window first rest
        with ⟨tl, c⟩
      simp only [hres]
      have h1 := adjacent_merge_go_switch tl first
      have h2 := smooth_reassign_go_switch cfg.smoothing_window rest first
      rw [hres] at h2
      simp only at h2
      exact Nat.le_trans h1 h2

/-- C5. For any input with at least 3 segments, processing never increases
the number of adjacent speaker changes. -/
theorem process_switch_count_monotone (cfg : SegmentProcessingConfig)
    (r : DiarizationResult) (hlen : 3 ≤ r.segments.length) :
    count_speaker_switches (SegmentProcessor.process cfg r).segments ≤
      count_speaker_switches r.segments := by
  have h3 : r.segments ≠ [] := by
    intro h
    rw [h] at hlen
    simp at hlen
  by_cases h1 : cfg.enabled = true
  · by_cases h2 : r.success = true
    · rw [count_speaker_switches_eq, count_speaker_switches_eq,
        process_segments_spec cfg r h1 h2 h3]
      exact Nat.le_trans (smooth_speaker_transitions_switch cfg _ _)
        (Nat.le_trans (merge_consecutive_segments_switch cfg _ _)
          (filter_micro_segments_switch cfg _ _))
    · have hp : SegmentProcessor.process cfg r = r := by
        rw [Bool.not_eq_true] at h2
        unfold SegmentProcessor.process
        simp [h2]
      rw [hp]
  · have hp : SegmentProcessor.process cfg r = r := by
      rw [Bool.not_eq_true] at h1
      unfold SegmentProcessor.process
      simp [h1]
    rw [hp]

/-- Witness for C5 at a concrete three-segment input with two switches. -/
theorem process_switch_count_monotone_witness :
    count_speaker_switches (SegmentProcessor.process
      SegmentProcessingConfig.default
      ⟨true, [⟨"A", 0, 2, 2⟩, ⟨"B", 2, 25/10, 1/2⟩, ⟨"A", 25/10, 45/10, 2⟩],
        [("A", 4), ("B", 1/2)], 2, [], none⟩).segments ≤
      count_speaker_switches
        [⟨"A", 0, 2, 2⟩, ⟨"B", 2, 25/10, 1/2⟩, ⟨"A", 25/10, 45/10, 2⟩] :=
  process_switch_count_monotone SegmentProcessingConfig.default
    ⟨true, [⟨"A", 0, 2, 2⟩, ⟨"B", 2, 25/10, 1/2⟩, ⟨"A", 25/10, 45/10, 2⟩],
      [("A", 4), ("B", 1/2)], 2, [], none⟩ (by norm_num)

/-- Bounds for a four-component convex-style combination with each component
in [0, 1] and nonnegative weights summing to at most 1. -/
theorem convex4_bounds (a b c d wa wb wc wd : ℚ)
    (ha : 0 ≤ a) (ha1 : a ≤ 1) (hb : 0 ≤ b) (hb1 : b ≤ 1)
    (hc : 0 ≤ c) (hc1 : c ≤ 1) (hd : 0 ≤ d) (hd1 : d ≤ 1)
    (hwa : 0 ≤ wa) (hwb : 0 ≤ wb) (hwc : 0 ≤ wc) (hwd : 0 ≤ wd)
    (hsum : wa + wb + wc + wd ≤ 1) :
    0 ≤ a * wa + b * wb + c * wc + d * wd ∧
      a * wa + b * wb + c * wc + d * wd ≤ 1 := by
  have h1 : a * wa ≤ wa := by nlinarith [mul_nonneg (sub_nonneg.mpr ha1) hwa]
  have h2 : b * wb ≤ wb := by nlinarith [mul_nonneg (sub_nonneg.mpr hb1) hwb]
  have h3 : c * wc ≤ wc := by nlinarith [mul_nonneg (sub_nonneg.mpr hc1) hwc]
  have h4 : d * wd ≤ wd := by nlinarith [mul_nonneg (sub_nonneg.mpr hd1) hwd]
  constructor
  · have := mul_nonneg ha hwa
    have := mul_nonneg hb hwb
    have := mul_nonneg hc hwc
    have := mul_nonneg hd hwd
    linarith
  · linarith

/-- A clamped value `min 1 x` for nonnegative `x` lies in [0, 1]. -/
theorem min1_bounds (x : ℚ) (hx : 0 ≤ x) : 0 ≤ min 1 x ∧ min 1 x ≤ 1 :=
  ⟨le_min zero_le_one hx, min_le_left 1 x⟩

/-- `1 - min 1 x` for nonnegative `x` lies in [0, 1]. -/
theorem one_sub_min1_bounds (x : ℚ) (hx : 0 ≤ x) :
    0 ≤ 1 - min 1 x ∧ 1 - min 1 x ≤ 1 := by
  constructor
  · have := min_le_left 1 x
    linarith
  · have := le_min zero_le_one hx
    linarith

/-- `max 0 (min 1 x)` always lies in [0, 1]. -/
theorem clamp01_bounds (x : ℚ) :
    0 ≤ max 0 (min 1 x) ∧ max 0 (min 1 x) ≤ 1 :=
  ⟨le_max_left 0 _, max_le zero_le_one (min_le_left 1 x)⟩

/-- `max 0 x` for `x ≤ 1` lies in [0, 1]. -/
theorem max0_bounds (x : ℚ) (hx : x ≤ 1) : 0 ≤ max 0 x ∧ max 0 x ≤ 1 :=
  ⟨le_max_left 0 x, max_le zero_le_one hx⟩

/-- The issue-penalty base `1 - (c * 0.3 + h * 0.1)` is at most 1. -/
theorem issue_penalty_le_one (c h : ℕ) :
    1 - ((c : ℚ) * (3/10) + (h : ℚ) * (1/10)) ≤ 1 := by
  have hc : 0 ≤ (c : ℚ) := Nat.cast_nonneg c
  have hh : 0 ≤ (h : ℚ) := Nat.cast_nonneg h
  nlinarith

/-- The diarization switch rate is nonnegative. -/
theorem switch_rate_nonneg (s : ℕ) (dur : ℚ) :
    0 ≤ (if dur > 0 then (s : ℚ) / (dur / 60) else 0) := by
  split_ifs with h
  · exact div_nonneg (Nat.cast_nonneg s) (by positivity)
  · exact le_refl 0

/-- `meanQ` of a list of nonnegative values is nonnegative. -/
theorem meanQ_nonneg (l : List ℚ) (h : ∀ x ∈ l, 0 ≤ x) : 0 ≤ meanQ l := by
  unfold meanQ
  exact div_nonneg (List.sum_nonneg h) (Nat.cast_nonneg l.length)

/-- Diarization assessment: score in [0, 1] (given nonnegative durations)
and `passed = false` whenever a CRITICAL issue is present. -/
theorem assess_diarization_props (thr : QualityThresholds)
    (r : DiarizationResult) (hdur : ∀ s ∈ r.segments, 0 ≤ s.duration) :
    (0 ≤ (assess_diarization_quality thr r).overall_score ∧
      (assess_diarization_quality thr r).overall_score ≤ 1) ∧
    ∀ i ∈ (assess_diarization_quality thr r).issues,
      i.severity = QualitySeverity.critical →
        (assess_diarization_quality thr r).passed = false := by
  by_cases hseg : r.segments = []
  · unfold assess_diarization_quality
    rw [if_pos hseg]
    exact ⟨⟨le_refl 0, by norm_num⟩, fun i hi hs => rfl⟩
  · constructor
    · unfold assess_diarization_quality
      rw [if_neg hseg]
      dsimp only
      refine convex4_bounds _ _ _ _ _ _ _ _ ?_ ?_ ?_ ?_ ?_ ?_ ?_ ?_
        (by norm_num) (by norm_num) (by norm_num) (by norm_num) (by norm_num)
      · exact (one_sub_min1_bounds _ (by positivity)).1
      · exact (one_sub_min1_bounds _ (by positivity)).2
      · refine (min1_bounds _ ?_).1
        refine div_nonneg (meanQ_nonneg _ ?_) (by norm_num)
        intro x hx
        obtain ⟨s, hs, rfl⟩ := List.mem_map.mp hx
        exact hdur s hs
      · exact (min1_bounds _ (div_nonneg (meanQ_nonneg _ (by
          intro x hx
          obtain ⟨s, hs, rfl⟩ := List.mem_map.mp hx
          exact hdur s hs)) (by norm_num))).2
      · exact (one_sub_min1_bounds _
          (div_nonneg (switch_rate_nonneg _ _) (by norm_num))).1
      · exact (one_sub_min1_bounds _
          (div_nonneg (switch_rate_nonneg _ _) (by norm_num))).2
      · exact le_max_left 0 _
      · exact (max0_bounds _ (issue_penalty_le_one _ _)).2
    · intro i hi hs
      unfold assess_diarization_quality at hi ⊢
      rw [if_neg hseg] at hi ⊢
      dsimp only at hi ⊢
      rw [decide_eq_false_iff_not]
      rintro ⟨hge, hcnt⟩
      exact severityCount_pos_of_mem hi hs hcnt

/-- Transcription assessment: score in [0, 1] (given a nonnegative `exp`
model and a nonnegative confidence threshold) and `passed = false` whenever
a CRITICAL issue is present. -/
theorem assess_transcription_props (expf : ℚ → ℚ) (thr : QualityThresholds)
    (r : TranscriptionResult) (hexp : ∀ x, 0 ≤ expf x)
    (hthr : 0 ≤ thr.min_avg_confidence) :
    (0 ≤ (assess_transcription_quality expf thr r).overall_score ∧
      (assess_transcription_quality expf thr r).overall_score ≤ 1) ∧
    ∀ i ∈ (assess_transcription_quality expf thr r).issues,
      i.severity = QualitySeverity.critical →
        (assess_transcription_quality expf thr r).passed = false := by
  have hconf : 0 ≤ meanQ (r.segments.map fun s =>
      logprobConfidence expf s.avg_logprob) := by
    refine meanQ_nonneg _ ?_
    intro x hx
    obtain ⟨s, hs, rfl⟩ := List.mem_map.mp hx
    unfold logprobConfidence
    split_ifs
    · exact hexp s.avg_logprob
    · exact le_refl 0
  by_cases hseg : r.segments = []
  · unfold assess_transcription_quality
    rw [if_pos hseg]
    exact ⟨⟨le_refl 0, by norm_num⟩, fun i hi hs => rfl⟩
  · constructor
    · unfold assess_transcription_quality
      rw [if_neg hseg]
      dsimp only
      refine convex4_bounds _ _ _ _ _ _ _ _ ?_ ?_ ?_ ?_ ?_ ?_ ?_ ?_
        (by norm_num) (by norm_num) (by norm_num) (by norm_num) (by norm_num)
      · exact (min1_bounds _ (div_nonneg hconf hthr)).1
      · exact (min1_bounds _ (div_nonneg hconf hthr)).2
      · exact (clamp01_bounds _).1
      · exact (clamp01_bounds _).2
      · exact (clamp01_bounds _).1
      · exact (clamp01_bounds _).2
      · exact le_max_left 0 _
      · exact (max0_bounds _ (issue_penalty_le_one _ _)).2
    · intro i hi hs
      unfold assess_transcription_quality at hi ⊢
      rw [if_neg hseg] at hi ⊢
      dsimp only at hi ⊢
      rw [decide_eq_false_iff_not]
      rintro ⟨hge, hcnt⟩
      exact severityCount_pos_of_mem hi hs hcnt

/-- No `EnhancedSegment` view carries a `confidence` attribute, so the
collected confidence list is always empty. -/
theorem toView_filterMap_confidence (l : List EnhancedSegment) :
    (l.map EnhancedSegment.toView).filterMap (fun x => x.confidence) = [] := by
  induction l with
  | nil => rfl
  | cons s rest ih => simp [EnhancedSegment.toView, ih]

/-- Combination assessment: score always in [0, 1], and `passed = false`
whenever a CRITICAL issue is present. -/
theorem assess_combination_props (thr : QualityThresholds)
    (r : CombinationResult) :
    (0 ≤ (assess_combination_quality thr r).overall_score ∧
      (assess_combination_quality thr r).overall_score ≤ 1) ∧
    ∀ i ∈ (assess_combination_quality thr r).issues,
      i.severity = QualitySeverity.critical →
        (assess_combination_quality thr r).passed = false := by
  have hc := toView_filterMap_confidence r.segments
  by_cases hseg : r.segments.map EnhancedSegment.toView = []
  · unfold assess_combination_quality assess_combination_segments
    rw [if_pos hseg]
    exact ⟨⟨le_refl 0, by norm_num⟩, fun i hi hs => rfl⟩
  · constructor
    · unfold assess_combination_quality assess_combination_segments
      rw [if_neg hseg]
      dsimp only
      simp only [hc, ne_eq, not_true_eq_false, if_false, List.filter_nil,
        List.length_nil, Nat.cast_zero, zero_div, sub_zero]
      refine convex4_bounds _ _ _ _ _ _ _ _ ?_ ?_ ?_ ?_ ?_ ?_ ?_ ?_
        (by norm_num) (by norm_num) (by norm_num) (by norm_num) (by norm_num)
      · norm_num
      · norm_num
      · exact (clamp01_bounds _).1
      · exact (clamp01_bounds _).2
      · exact le_max_left 0 _
      · refine (max0_bounds _ ?_).2
        have : (0 : ℚ) ≤ (rapid_switch_count (r.segments.map
            EnhancedSegment.toView) : ℚ) /
            ((r.segments.map EnhancedSegment.toView).length : ℚ) := by
          positivity
        linarith
      · exact le_max_left 0 _
      · exact (max0_bounds _ (issue_penalty_le_one _ _)).2
    · intro i hi hs
      unfold assess_combination_quality assess_combination_segments at hi ⊢
      rw [if_neg hseg] at hi ⊢
      dsimp only at hi ⊢
      rw [decide_eq_false_iff_not]
      rintro ⟨hge, hcnt⟩
      exact severityCount_pos_of_mem hi hs hcnt

/-- C2. For every input (empty or non-empty segment list) to the three stage
assessment functions, the returned assessment's `overall_score` lies in
[0, 1], and `passed` is false whenever the issue list contains a CRITICAL
issue.  Hypotheses: diarization segment durations are nonnegative (spec data
model: `duration = end - start > 0`), the `np.exp` model is nonnegative, and
the confidence threshold is nonnegative (its default is 0.7). -/
theorem assessment_score_bounds_and_critical_gate (expf : ℚ → ℚ)
    (thr : QualityThresholds) (dr : DiarizationResult)
    (tr : TranscriptionResult) (cr : CombinationResult)
    (hdur : ∀ s ∈ dr.segments, 0 ≤ s.duration)
    (hexp : ∀ x, 0 ≤ expf x) (hthr : 0 ≤ thr.min_avg_confidence) :
    ((0 ≤ (assess_diarization_quality thr dr).overall_score ∧
      (assess_diarization_quality thr dr).overall_score ≤ 1) ∧
     ∀ i ∈ (assess_diarization_quality thr dr).issues,
       i.severity = QualitySeverity.critical →
         (assess_diarization_quality thr dr).passed = false) ∧
    ((0 ≤ (assess_transcription_quality expf thr tr).overall_score ∧
      (assess_transcription_quality expf thr tr).overall_score ≤ 1) ∧
     ∀ i ∈ (assess_transcription_quality expf thr tr).issues,
       i.severity = QualitySeverity.critical →
         (assess_transcription_quality expf thr tr).passed = false) ∧
    ((0 ≤ (assess_combination_quality thr cr).overall_score ∧
      (assess_combination_quality thr cr).overall_score ≤ 1) ∧
     ∀ i ∈ (assess_combination_quality thr cr).issues,
       i.severity = QualitySeverity.critical →
         (assess_combination_quality thr cr).passed = false) :=
  ⟨assess_diarization_props thr dr hdur,
   assess_transcription_props expf thr tr hexp hthr,
   assess_combination_props thr cr⟩

/-- Witness for C2 at concrete stage results (one diarization segment, one
transcription segment, one combined segment, default thresholds, constant-1
exponential model), with the diarization score projection spelled out. -/
theorem assessment_score_bounds_and_critical_gate_witness :
    (0 ≤ (assess_diarization_quality QualityThresholds.default
        ⟨true, [⟨"A", 0, 2, 2⟩], [("A", 2)], 1, [], none⟩).overall_score ∧
      (assess_diarization_quality QualityThresholds.default
        ⟨true, [⟨"A", 0, 2, 2⟩], [("A", 2)], 1, [], none⟩).overall_score ≤ 1) ∧
    (0 ≤ (assess_transcription_quality (fun _ => 1) QualityThresholds.default
        ⟨[⟨0, 2, "hi", -1/2, 1/10, 1⟩], "en"⟩).overall_score ∧
      (assess_transcription_quality (fun _ => 1) QualityThresholds.default
        ⟨[⟨0, 2, "hi", -1/2, 1/10, 1⟩], "en"⟩).overall_score ≤ 1) ∧
    (0 ≤ (assess_combination_quality QualityThresholds.default
        lowConfCombination).overall_score ∧
      (assess_combination_quality QualityThresholds.default
        lowConfCombination).overall_score ≤ 1) :=
  have h := assessment_score_bounds_and_critical_gate (fun _ => 1)
    QualityThresholds.default
    ⟨true, [⟨"A", 0, 2, 2⟩], [("A", 2)], 1, [], none⟩
    ⟨[⟨0, 2, "hi", -1/2, 1/10, 1⟩], "en"⟩
    lowConfCombination
    (by intro s hs; rcases List.mem_singleton.mp hs with rfl; norm_num)
    (fun x => by norm_num) (by norm_num [QualityThresholds.default])
  ⟨h.1.1, h.2.1.1, h.2.2.1⟩
